import Mathlib

/-!
Verification development for the course-json-loader repository.

The repository has two Python source files:
* `courseLoader.py` — the flat-schema loader: README table parsing,
  link-reference resolution, directory-based file classification,
  raw-URL construction, and a merge-by-`course_code` catalog update.
* `meta.py` — the legacy loader: same README parsing, filename-heuristic
  classification into a nested `files` object.

This file shallowly embeds both.  Filesystem interaction (`os.walk`,
`os.listdir`, `os.path.isdir`) is abstracted into an explicit context
structure; everything else is translated function by function from the
source.  Python `str` operations are modelled at the ASCII level
(`str.lower`, `str.upper`, `str.isdigit`, `urllib.parse.quote/unquote`
treat only code points below 128 specially; the inputs exercised by the
claims are ASCII).
-/

namespace CourseJson

/-! ### Python string primitives (ASCII-level models) -/

/-- The characters matched by Python's `\s` regex class / stripped by
`str.strip()` (ASCII part). -/
def isPySpace (c : Char) : Bool :=
  c = ' ' || c = '\t' || c = '\n' || c = '\r' || c = '\x0b' || c = '\x0c'

/-- ASCII decimal digit, as matched by `\d` / `str.isdigit` on ASCII text. -/
def isAsciiDigit (c : Char) : Bool :=
  '0' ≤ c && c ≤ '9'

/-- ASCII model of `str.lower` on one character. -/
def asciiLower (c : Char) : Char :=
  if 'A' ≤ c && c ≤ 'Z' then Char.ofNat (c.toNat + 32) else c

/-- ASCII model of `str.upper` on one character. -/
def asciiUpper (c : Char) : Char :=
  if 'a' ≤ c && c ≤ 'z' then Char.ofNat (c.toNat - 32) else c

/-- ASCII model of `str.lower`. -/
def pyLower (s : String) : String :=
  String.mk (s.toList.map asciiLower)

/-- ASCII model of `str.upper`. -/
def pyUpper (s : String) : String :=
  String.mk (s.toList.map asciiUpper)

/-- Model of `str.strip()` (no argument): remove leading and trailing
whitespace. -/
def pyStrip (s : String) : String :=
  String.mk (((s.toList.dropWhile isPySpace).reverse.dropWhile isPySpace).reverse)

/-- Model of `str.isdigit` on ASCII text: nonempty and all decimal digits. -/
def pyIsdigit (s : String) : Bool :=
  !s.toList.isEmpty && s.toList.all isAsciiDigit

/-- Decimal value of an (all-digit) string, the value produced by `int(...)`. -/
def natOfDigits (s : String) : Nat :=
  s.toList.foldl (fun a c => 10 * a + (c.toNat - 48)) 0

/-- Boolean prefix test on lists (model for `str.startswith`). -/
def listIsPre [DecidableEq α] : List α → List α → Bool
  | [], _ => true
  | _ :: _, [] => false
  | a :: as, b :: bs => a = b && listIsPre as bs

/-- Model of `s.startswith(pre)`. -/
def pyStartswith (s pre : String) : Bool :=
  listIsPre pre.toList s.toList

/-- Model of `s.endswith(suf)`. -/
def pyEndswith (s suf : String) : Bool :=
  listIsPre suf.toList.reverse s.toList.reverse

/-- Boolean contiguous-sublist test on lists (model for Python's
`sub in s`). -/
def listHasInfixOf [DecidableEq α] (n : List α) : List α → Bool
  | [] => listIsPre n []
  | l@(_ :: rest) => listIsPre n l || listHasInfixOf n rest

/-- Model of Python's `sub in s` substring test. -/
def pyContains (s sub : String) : Bool :=
  listHasInfixOf sub.toList s.toList

/-- Remove a leading `pre` from `l`, returning the remainder, if `pre` is a
prefix of `l`. -/
def dropPreQ [DecidableEq α] : List α → List α → Option (List α)
  | [], l => some l
  | _ :: _, [] => none
  | a :: as, b :: bs => if a = b then dropPreQ as bs else none

/-- Fuel-indexed worker for Python `str.split(sep)` with a nonempty
separator `s0 :: srest`: split at every non-overlapping occurrence,
scanning left to right.  The fuel is an upper bound on the input length,
so the zero-fuel fallback is unreachable at the call site. -/
def pySplitAux [DecidableEq α] (s0 : α) (srest : List α) (acc : List α) :
    Nat → List α → List (List α)
  | _, [] => [acc.reverse]
  | 0, rest => [acc.reverse ++ rest]
  | fuel + 1, c :: rest =>
    if c = s0 then
      match dropPreQ srest rest with
      | some rem => acc.reverse :: pySplitAux s0 srest [] fuel rem
      | none => pySplitAux s0 srest (c :: acc) fuel rest
    else pySplitAux s0 srest (c :: acc) fuel rest

/-- Model of Python `s.split(sep)` for a nonempty separator.  (Python raises
on an empty separator; that case is never used by the source.) -/
def pySplit (sep s : String) : List String :=
  match sep.toList with
  | [] => [s]
  | s0 :: srest => (pySplitAux s0 srest [] s.toList.length s.toList).map String.mk

/-- Remainder after the first occurrence of `sep` in `l`, if any: the `[1]`
component of Python's `s.split(sep, 1)`. -/
def splitOnceRest [DecidableEq α] (sep : List α) : List α → Option (List α)
  | [] => none
  | l@(_ :: rest) =>
    match dropPreQ sep l with
    | some rem => some rem
    | none => splitOnceRest sep rest

/-- Model of `s.split(sep, 1)[1]` (used only after a `startswith` guard, so
the occurrence exists; `""` is an unreachable fallback). -/
def pySplitOnceSnd (sep s : String) : String :=
  match splitOnceRest sep.toList s.toList with
  | some rem => String.mk rem
  | none => ""

/-- Model of `str.rstrip(chars)`: remove every trailing character that
belongs to the set `chars` (Python treats the argument as a character set,
not as a suffix). -/
def pyRstripSet (chars : List Char) (s : String) : String :=
  String.mk ((s.toList.reverse.dropWhile (fun c => c ∈ chars)).reverse)

/-- Model of Python `str.splitlines` for the line breaks `\r\n`, `\r`, `\n`
(the breaks that occur in the repository's inputs).  Like Python, a trailing
break produces no trailing empty line. -/
def pySplitlinesAux (acc : List Char) : List Char → List String
  | [] => if acc.isEmpty then [] else [String.mk acc.reverse]
  | '\r' :: '\n' :: rest => String.mk acc.reverse :: pySplitlinesAux [] rest
  | '\r' :: rest => String.mk acc.reverse :: pySplitlinesAux [] rest
  | '\n' :: rest => String.mk acc.reverse :: pySplitlinesAux [] rest
  | c :: rest => pySplitlinesAux (c :: acc) rest

/-- Model of `readme_content.splitlines()`. -/
def pySplitlines (s : String) : List String :=
  pySplitlinesAux [] s.toList

/-- Value of an ASCII hex digit, if it is one. -/
def hexVal (c : Char) : Option Nat :=
  if '0' ≤ c && c ≤ '9' then some (c.toNat - 48)
  else if 'A' ≤ c && c ≤ 'F' then some (c.toNat - 55)
  else if 'a' ≤ c && c ≤ 'f' then some (c.toNat - 87)
  else none

/-- Worker for `urllib.parse.unquote`, ASCII model: decode each valid `%XX`
escape to the character with that code; leave invalid escapes untouched. -/
def pyUnquoteAux : List Char → List Char
  | [] => []
  | '%' :: h1 :: h2 :: rest =>
    match hexVal h1, hexVal h2 with
    | some v1, some v2 => Char.ofNat (16 * v1 + v2) :: pyUnquoteAux rest
    | _, _ => '%' :: pyUnquoteAux (h1 :: h2 :: rest)
  | c :: rest => c :: pyUnquoteAux rest

/-- ASCII model of `urllib.parse.unquote` (percent-decoding). -/
def pyUnquote (s : String) : String :=
  String.mk (pyUnquoteAux s.toList)

/-- Characters `urllib.parse.quote` never escapes (the always-safe set;
`/` cannot occur in the per-segment inputs the source feeds it). -/
def isQuoteSafe (c : Char) : Bool :=
  ('A' ≤ c && c ≤ 'Z') || ('a' ≤ c && c ≤ 'z') || ('0' ≤ c && c ≤ '9') ||
    c = '_' || c = '.' || c = '-' || c = '~' || c = '/'

/-- Uppercase hex digit for a value below 16. -/
def hexDigitUpper (n : Nat) : Char :=
  if n < 10 then Char.ofNat (48 + n) else Char.ofNat (55 + n)

/-- ASCII model of `urllib.parse.quote` on one character. -/
def pyQuoteChar (c : Char) : List Char :=
  if isQuoteSafe c then [c]
  else ['%', hexDigitUpper (c.toNat / 16), hexDigitUpper (c.toNat % 16)]

/-- ASCII model of `urllib.parse.quote`. -/
def pyQuote (s : String) : String :=
  String.mk (s.toList.foldr (fun c acc => pyQuoteChar c ++ acc) [])

/-- Model of `sep.join(parts)`. -/
def joinWith (sep : String) : List String → String
  | [] => ""
  | [x] => x
  | x :: xs => x ++ sep ++ joinWith sep xs

/-- Model of `path.replace('\\', '/')` (single-character replace). -/
def deback (s : String) : String :=
  String.mk (s.toList.map (fun c => if c = '\\' then '/' else c))

/-- Code-point lexicographic order on character lists, Python's `<=` on
strings. -/
def listStrLe : List Char → List Char → Bool
  | [], _ => true
  | _ :: _, [] => false
  | a :: as, b :: bs =>
    if a.toNat < b.toNat then true
    else if b.toNat < a.toNat then false
    else listStrLe as bs

/-- Python's `<=` on strings (code-point lexicographic). -/
def strLe (a b : String) : Bool :=
  listStrLe a.toList b.toList

/-- Insert `a` into a sorted list, after any element `le`-below-or-equal to
it; with `foldl` this yields a stable insertion sort, the model for
Python's stable `list.sort`. -/
def insertLe (le : α → α → Bool) (a : α) : List α → List α
  | [] => [a]
  | b :: bs => if le b a then b :: insertLe le a bs else a :: b :: bs

/-- Stable insertion sort (model for Python's `sorted` / `list.sort`). -/
def sortByLe (le : α → α → Bool) (l : List α) : List α :=
  l.foldl (fun acc a => insertLe le a acc) []

/-- First-occurrence deduplication (model for `dict.fromkeys` /
iteration over a `set` followed by `sorted`). -/
def dedupFirstAux [DecidableEq α] (seen : List α) : List α → List α
  | [] => []
  | a :: rest =>
    if a ∈ seen then dedupFirstAux seen rest
    else a :: dedupFirstAux (a :: seen) rest

/-- First-occurrence deduplication. -/
def dedupFirst [DecidableEq α] (l : List α) : List α :=
  dedupFirstAux [] l

/-! ### Python `dict` with string keys, as an insertion-ordered
association list: one entry per key, update keeps the position, new keys
are appended. -/

/-- `d[k] = v` on an insertion-ordered dict. -/
def dictSet (k : String) (v : α) : List (String × α) → List (String × α)
  | [] => [(k, v)]
  | (k', v') :: rest =>
    if k' = k then (k, v) :: rest else (k', v') :: dictSet k v rest

/-- `d.get(k)` on an insertion-ordered dict. -/
def dictGet (k : String) : List (String × α) → Option α
  | [] => none
  | (k', v) :: rest => if k' = k then some v else dictGet k rest

/-- `list(d.keys())`. -/
def dictKeys (m : List (String × α)) : List String :=
  m.map Prod.fst

/-- `list(d.values())`. -/
def dictValues (m : List (String × α)) : List α :=
  m.map Prod.snd

/-! ### The table-row regex

`courseLoader.py` and `meta.py` share
`re.compile(r"\|\s*\d+\s*\|\s*\[?([^\]]+?)\]?\s*\|([^|]+)\|([^|]+)\|([^|]+)\|")`
applied with `.search` to each README line.  The engine below reproduces
the backtracking order of Python's `re`:

* `\|\s*\d+\s*\|` is deterministic (each greedy run is forced, because
  backtracking it puts the following literal on a character it cannot
  match);
* `\s*` before `\[?` is greedy: lengths are tried from the maximal run
  downwards;
* `\[?` is greedy: consuming a `[` is tried before not consuming it;
* `([^\]]+?)` is lazy: lengths are tried from 1 upwards, each against the
  full continuation `\]?\s*\|([^|]+)\|([^|]+)\|([^|]+)\|`;
* inside that continuation `\]?`, `\s*` and each `([^|]+)\|` are again
  deterministic;
* `.search` tries start positions left to right.
-/

/-- One `([^|]+)\|` cell: maximal nonempty run of non-`|` characters,
followed by a literal `|`. -/
def rowCell (cs : List Char) : Option (String × List Char) :=
  let gr := cs.takeWhile (fun c => !(c = '|'))
  let rest := cs.dropWhile (fun c => !(c = '|'))
  if gr.isEmpty then none
  else
    match rest with
    | '|' :: r => some (String.mk gr, r)
    | _ => none

/-- The three trailing cells `([^|]+)\|([^|]+)\|([^|]+)\|`. -/
def rowCells3 (cs : List Char) : Option (String × String × String) := do
  let (g2, cs) ← rowCell cs
  let (g3, cs) ← rowCell cs
  let (g4, _) ← rowCell cs
  pure (g2, g3, g4)

/-- The continuation after the lazy code group:
`\]?\s*\|([^|]+)\|([^|]+)\|([^|]+)\|`. -/
def rowAfterGroup (cs : List Char) : Option (String × String × String) :=
  let cs1 := match cs with
    | ']' :: r => r
    | _ => cs
  let cs2 := cs1.dropWhile isPySpace
  match cs2 with
  | '|' :: r => rowCells3 r
  | _ => none

/-- The lazy group `([^\]]+?)`: grow the group one character at a time,
testing the full continuation after each character. -/
def rowGroupLoop (acc : List Char) : List Char → Option (String × (String × String × String))
  | [] => none
  | c :: rest =>
    if c = ']' then none
    else
      match rowAfterGroup rest with
      | some g => some (String.mk (acc ++ [c]), g)
      | none => rowGroupLoop (acc ++ [c]) rest

/-- The optional bracket `\[?`: greedy, so consuming a leading `[` is tried
first, and only if every continuation fails is the bracket left to the
group itself. -/
def rowBracketTry (cs : List Char) : Option (String × (String × String × String)) :=
  match cs with
  | '[' :: rest => rowGroupLoop [] rest <|> rowGroupLoop [] cs
  | _ => rowGroupLoop [] cs

/-- The greedy `\s*` before the optional bracket: consuming `n` leading
spaces is tried for `n` from the maximal run down to `0`. -/
def rowSpacesTry (cs : List Char) : Nat → Option (String × (String × String × String))
  | 0 => rowBracketTry cs
  | n + 1 => rowBracketTry (cs.drop (n + 1)) <|> rowSpacesTry cs n

/-- Match the full table-row pattern anchored at the head of `cs`. -/
def matchRowAt (cs : List Char) : Option (String × String × String × String) :=
  match cs with
  | '|' :: cs1 =>
    let cs2 := cs1.dropWhile isPySpace
    let digits := cs2.takeWhile isAsciiDigit
    let cs3 := cs2.dropWhile isAsciiDigit
    if digits.isEmpty then none
    else
      match cs3.dropWhile isPySpace with
      | '|' :: cs4 =>
        match rowSpacesTry cs4 ((cs4.takeWhile isPySpace).length) with
        | some (g1, (g2, g3, g4)) => some (g1, g2, g3, g4)
        | none => none
      | _ => none
  | _ => none

/-- `table_row_regex.search(line)`: leftmost match. -/
def searchRow : List Char → Option (String × String × String × String)
  | [] => none
  | l@(_ :: rest) =>
    match matchRowAt l with
    | some g => some g
    | none => searchRow rest

/-! ### The link-reference regex

`re.compile(r"\[([^\]]+)\]:\s*\./([^/]+?)/?$")`, again with `.search` per
line.  Every quantifier here is deterministic once the start position is
fixed: `[^\]]+` is greedy and bounded by the required `\]`, `\s*` is
bounded by the required `\.`, and the lazy `([^/]+?)` can only stop where
`/?$` matches, which (on newline-free lines, as produced by `splitlines`)
forces the maximal non-`/` run with a remainder of either nothing or a
single final `/`. -/

/-- The tail of the link pattern after the literal `./`: the lazy
`([^/]+?)` with `/?$`, which on a newline-free line accepts exactly a
nonempty run of non-`/` characters followed by nothing or a single final
`/`. -/
def linkAfterDot (cs3 lab : List Char) : Option (String × String) :=
  let path := cs3.takeWhile (fun c => !(c = '/'))
  let tail := cs3.dropWhile (fun c => !(c = '/'))
  if path.isEmpty then none
  else if tail = [] ∨ tail = ['/'] then some (String.mk lab, String.mk path)
  else none

/-- The part of the link pattern after the literal `:`: the greedy `\s*`
followed by the literal `./` and the tail. -/
def linkAfterColon (cs2 lab : List Char) : Option (String × String) :=
  match cs2.dropWhile isPySpace with
  | c3 :: c4 :: cs3 => if c3 = '.' ∧ c4 = '/' then linkAfterDot cs3 lab else none
  | _ => none

/-- The part of the link pattern after the label: the literal `]:`
followed by the rest. -/
def linkAfterLabel (rest lab : List Char) : Option (String × String) :=
  match rest with
  | c1 :: c2 :: cs2 => if c1 = ']' ∧ c2 = ':' then linkAfterColon cs2 lab else none
  | _ => none

/-- Match the link-reference pattern anchored at the head of `cs`
(`$` = end of the line): the literal `[`, the greedy `([^\]]+)`, then the
rest of the pattern. -/
def matchLinkAt (cs : List Char) : Option (String × String) :=
  match cs with
  | [] => none
  | c0 :: cs1 =>
    if c0 = '[' then
      let lab := cs1.takeWhile (fun c => !(c = ']'))
      if lab.isEmpty then none
      else linkAfterLabel (cs1.dropWhile (fun c => !(c = ']'))) lab
    else none

/-- `link_ref_regex.search(line)`: leftmost match. -/
def searchLink : List Char → Option (String × String)
  | [] => none
  | l@(_ :: rest) =>
    match matchLinkAt l with
    | some g => some g
    | none => searchLink rest

/-! ### README parsers (`parse_course_table_from_readme`,
`parse_link_references_from_readme`; identical in both source files) -/

/-- The value stored per primary course code by
`parse_course_table_from_readme`. -/
structure Details where
  full_code : String
  title : String
  credits : Nat
  prerequisites : List String
deriving DecidableEq, Repr

/-- The body executed on a regex match of a table row: strip the four
groups, take the part of the code cell before the first `/` as the key,
parse credits with the `isdigit` guard, split prerequisites on the literal
substring `"and"` (empty cell — falsy string — gives `[]`). -/
def detailsOfGroups (g : String × String × String × String) : String × Details :=
  let code_raw := pyStrip g.1
  let title := pyStrip g.2.1
  let credits_str := pyStrip g.2.2.1
  let prereqs := pyStrip g.2.2.2
  ((pySplit "/" code_raw).headD "",
   { full_code := code_raw
     title := title
     credits := if pyIsdigit credits_str then natOfDigits credits_str else 0
     prerequisites := if prereqs = "" then [] else (pySplit "and" prereqs).map pyStrip })

/-- `parse_course_table_from_readme`: scan the lines, store every matching
row under its primary code (later rows with the same primary code
overwrite earlier ones, dict semantics). -/
def parse_course_table_from_readme (readme_content : String) : List (String × Details) :=
  (pySplitlines readme_content).foldl
    (fun courses line =>
      match searchRow line.toList with
      | some g =>
        let kd := detailsOfGroups g
        dictSet kd.1 kd.2 courses
      | none => courses)
    []

/-- The body executed on a regex match of a link-reference line: strip
both groups and percent-decode the folder path. -/
def linkOfLine (line : String) : Option (String × String) :=
  match searchLink line.toList with
  | some g => some (pyStrip g.1, pyUnquote (pyStrip g.2))
  | none => none

/-- `parse_link_references_from_readme`: map each reference label to its
percent-decoded folder name. -/
def parse_link_references_from_readme (readme_content : String) : List (String × String) :=
  (pySplitlines readme_content).foldl
    (fun link_map line =>
      match linkOfLine line with
      | some kv => dictSet kv.1 kv.2 link_map
      | none => link_map)
    []

/-! ### GitHub raw-URL helpers (`courseLoader.py`) -/

/-- The character set Python's `rstrip('.git')` strips from the right:
`rstrip` takes a set of characters, not a suffix. -/
def gitChars : List Char := ['.', 'g', 'i', 't']

/-- `_extract_owner_repo`: return `owner/repo` from an HTTPS or SSH GitHub
remote URL, after `rstrip('.git')`. -/
def _extract_owner_repo (remote_url : String) : Option String :=
  if remote_url = "" then none
  else
    let url := pyRstripSet gitChars remote_url
    if pyStartswith url "git@github.com:" then some (pySplitOnceSnd ":" url)
    else if pyStartswith url "https://github.com/" then
      some (pySplitOnceSnd "https://github.com/" url)
    else none

/-- `_build_raw_url`: URL-encode each path segment, keep slashes, and join
under `raw.githubusercontent.com`. -/
def _build_raw_url (owner_repo branch path_in_repo : String) : String :=
  let quoted := joinWith "/" ((pySplit "/" path_in_repo).map pyQuote)
  "https://raw.githubusercontent.com/" ++ owner_repo ++ "/" ++ branch ++ "/" ++ quoted

/-! ### `courseLoader.py` flat data model -/

/-- An entry of `modules` / `reference_materials` / `syllabi`. -/
structure ContentItem where
  filename : String
  raw_link : String
  link : String
deriving DecidableEq, Repr

/-- The flat `COURSE_TEMPLATE` record of `courseLoader.py`. -/
structure Record where
  course_code : String
  title : String
  credits : Nat
  prerequisites : List String
  instructors : List String
  description : String
  current_term : Bool
  classes : List String
  grading_policy : String
  modules : List ContentItem
  textbooks : List String
  reference_materials : List ContentItem
  exam_dates : List (String × String)
  syllabi : List ContentItem
  assignments : List String
  exams : List String
deriving DecidableEq, Repr

/-- `COURSE_TEMPLATE` (the prototype deep-copied for new courses). -/
def COURSE_TEMPLATE : Record :=
  { course_code := ""
    title := ""
    credits := 0
    prerequisites := []
    instructors := []
    description := ""
    current_term := false
    classes := []
    grading_policy := ""
    modules := []
    textbooks := []
    reference_materials := []
    exam_dates := []
    syllabi := []
    assignments := []
    exams := [] }

/-- Abstraction of the repository working copy and its git metadata:
`owner_repo` and `branch` as detected from the remote, `os.listdir` of the
repository root, `os.path.isdir` on a root-level folder name, and the
flattened `os.walk` of a course folder as a list of
`(directory relative to the course folder — "." for the course root,
list of file names)` pairs in walk order. -/
structure Ctx where
  ownerRepo : Option String
  branch : String
  rootEntries : List String
  isDirAt : String → Bool
  walkOf : String → List (String × List String)

/-- The `make_raw` closure: a fully-qualified raw URL when the owner/repo
is known, otherwise the bare relative path. -/
def make_raw (ctx : Ctx) (course_folder_name path_inside_course : String) : String :=
  match ctx.ownerRepo with
  | some owner_repo =>
    _build_raw_url owner_repo ctx.branch (deback (course_folder_name ++ "/" ++ path_inside_course))
  | none => deback path_inside_course

/-- `os.path.relpath(os.path.join(root, fname), course_path)` with
backslashes normalized, for a walk entry. -/
def relPathOf (relDir fname : String) : String :=
  deback (if relDir = "." then fname else relDir ++ "/" ++ fname)

/-- `rel_dir_from_course.split('/')[0] if rel_dir_from_course != '.' else '.'`. -/
def topLevelOf (relDir : String) : String :=
  if relDir = "." then "." else (pySplit "/" relDir).headD ""

/-- `os.path.basename` (POSIX): the part after the last `/`. -/
def pyBasename (s : String) : String :=
  (pySplit "/" s).getLastD s

/-- Build one modules/references/syllabi entry
`{'filename': …, 'raw_link': …, 'link': ''}`. -/
def mkContentItem (ctx : Ctx) (folder relPath : String) : ContentItem :=
  { filename := relPath, raw_link := make_raw ctx folder relPath, link := "" }

/-- The per-file body of the walk loop in `extract_course_metadata`
(`courseLoader.py`): route by the first-level directory, splitting
`assignments` by the case-insensitive `EXAM` filename prefix; everything
else is ignored. -/
def routeFile (ctx : Ctx) (folder : String) (r : Record) (e : String × String) : Record :=
  let rel_path := relPathOf e.1 e.2
  let top_level := topLevelOf e.1
  let base := pyBasename e.2
  if pyLower top_level = "modules" then
    { r with modules := r.modules ++ [mkContentItem ctx folder rel_path] }
  else if pyLower top_level = "references" then
    { r with reference_materials := r.reference_materials ++ [mkContentItem ctx folder rel_path] }
  else if pyLower top_level = "syllabi" then
    { r with syllabi := r.syllabi ++ [mkContentItem ctx folder rel_path] }
  else if pyLower top_level = "assignments" then
    if pyStartswith (pyUpper base) "EXAM" then
      { r with exams := r.exams ++ [rel_path] }
    else
      { r with assignments := r.assignments ++ [rel_path] }
  else r

/-- The flattened file sequence of `os.walk(course_path)`, in walk order. -/
def walkEntries (ctx : Ctx) (folder : String) : List (String × String) :=
  (ctx.walkOf folder).foldr (fun p acc => p.2.map (fun f => (p.1, f)) ++ acc) []

/-- `_dedup_sort_list`: `sorted(list(dict.fromkeys(lst)))`. -/
def dedup_sort_list (lst : List String) : List String :=
  sortByLe strLe (dedupFirst lst)

/-- Worker for `_dedup_sort_obj_list`'s `(filename, raw_link)` dedup. -/
def dedupObjAux (seen : List (String × String)) : List ContentItem → List ContentItem
  | [] => []
  | it :: rest =>
    if (it.filename, it.raw_link) ∈ seen then dedupObjAux seen rest
    else it :: dedupObjAux ((it.filename, it.raw_link) :: seen) rest

/-- `_dedup_sort_obj_list`: first-occurrence dedup by the
`(filename, raw_link)` pair, then a stable sort by filename. -/
def dedup_sort_obj_list (lst : List ContentItem) : List ContentItem :=
  sortByLe (fun x y => strLe x.filename y.filename) (dedupObjAux [] lst)

/-- The per-course record update of `extract_course_metadata`
(`courseLoader.py`): overwrite the README-derived fields, reset the five
content lists, rebuild them from the walk of the course folder, and
dedup-sort each (the operator fields are not mentioned, hence carried
over from `r0`). -/
def fillRecord (ctx : Ctx) (course_code : String) (d : Details) (folder : String)
    (r0 : Record) : Record :=
  let r1 := { r0 with
    course_code := course_code
    title := d.title
    credits := d.credits
    prerequisites := d.prerequisites
    modules := []
    reference_materials := []
    syllabi := []
    assignments := []
    exams := [] }
  let r2 := (walkEntries ctx folder).foldl (routeFile ctx folder) r1
  { r2 with
    modules := dedup_sort_obj_list r2.modules
    reference_materials := dedup_sort_obj_list r2.reference_materials
    syllabi := dedup_sort_obj_list r2.syllabi
    assignments := dedup_sort_list r2.assignments
    exams := dedup_sort_list r2.exams }

/-- The fixed allow-list of `special_codes` in `extract_course_metadata`. -/
def special_codes : List String := ["MTH-1125", "HIS-1123", "HIS-1122", "MTH-1126"]

/-- Folder resolution for one course: special codes resolve to a root
directory literally named after the code; all others go through the
link-reference map keyed by `full_code`. -/
def resolveFolder (ctx : Ctx) (folder_map : List (String × String))
    (course_code : String) (d : Details) : Option String :=
  if course_code ∈ special_codes then
    if course_code ∈ ctx.rootEntries then some course_code else none
  else dictGet d.full_code folder_map

/-- The warnings printed by the per-course loop (modelled as data rather
than console text). -/
inductive Warning where
  | noSpecialFolder (course_code : String)
  | noLink (course_code : String)
  | folderNotDir (course_code folder : String)
deriving DecidableEq, Repr

/-- One iteration of the per-course loop of `extract_course_metadata`
(`courseLoader.py`): resolve the folder (warn and continue on failure),
then create-or-reuse the record keyed by the course code and fill it. -/
def stepCourse (ctx : Ctx) (folder_map : List (String × String))
    (acc : List (String × Record) × List Warning) (kd : String × Details) :
    List (String × Record) × List Warning :=
  match resolveFolder ctx folder_map kd.1 kd.2 with
  | none =>
    (acc.1, acc.2 ++ [if kd.1 ∈ special_codes then Warning.noSpecialFolder kd.1
                      else Warning.noLink kd.1])
  | some folder =>
    if ctx.isDirAt folder then
      let r0 := (dictGet kd.1 acc.1).getD COURSE_TEMPLATE
      (dictSet kd.1 (fillRecord ctx kd.1 kd.2 folder r0) acc.1, acc.2)
    else (acc.1, acc.2 ++ [Warning.folderNotDir kd.1 folder])

/-- The whole per-course loop, over the parsed README table, starting
from the loaded catalog dict and an empty warning log. -/
def processCourses (ctx : Ctx) (folder_map : List (String × String))
    (courses : List (String × Details)) (m : List (String × Record)) :
    List (String × Record) × List Warning :=
  courses.foldl (stepCourse ctx folder_map) (m, [])

/-- Loading an existing catalog file:
`{course.get('course_code'): course for course in existing_courses_list}`
(dict comprehension: insertion order of first occurrence, last value
wins). -/
def loadCatalog (existing : List Record) : List (String × Record) :=
  existing.foldl (fun m r => dictSet r.course_code r m) []

/-- One full run of the builder core (`courseLoader.py`), from an existing
serialized catalog to the serialized catalog it writes back:
load, process every README course, take the dict's values. -/
def runCatalog (ctx : Ctx) (folder_map : List (String × String))
    (courses : List (String × Details)) (existing : List Record) : List Record :=
  dictValues (processCourses ctx folder_map courses (loadCatalog existing)).1

/-! ### `meta.py` legacy data model -/

/-- The nested `files` object of `meta.py`'s `COURSE_TEMPLATE`. -/
structure MetaFiles where
  syllabus : Option String
  chapters : List String
  books : List String
  assignments : List String
  exams : List String
deriving DecidableEq, Repr

/-- The legacy course record of `meta.py`. -/
structure MetaRecord where
  course_code : String
  title : String
  credits : Nat
  prerequisites : List String
  instructor : String
  description : String
  learning_outcomes : List String
  term : String
  classes : List String
  grading_policy : String
  textbooks : List String
  reference_materials : List String
  exam_dates : List (String × String)
  contact : String
  files : MetaFiles
deriving DecidableEq, Repr

/-- `meta.py`'s `COURSE_TEMPLATE`. -/
def META_TEMPLATE : MetaRecord :=
  { course_code := ""
    title := ""
    credits := 0
    prerequisites := []
    instructor := ""
    description := ""
    learning_outcomes := []
    term := ""
    classes := []
    grading_policy := ""
    textbooks := []
    reference_materials := []
    exam_dates := []
    contact := ""
    files := { syllabus := none, chapters := [], books := [], assignments := [], exams := [] } }

/-- The syllabus heuristic of `meta.py`'s classifier: `"syllabus" in
lower_file and lower_file.endswith(('.pdf', '.md', '.doc', 'docx'))`. -/
def metaPredSyllabus (lower_file : String) : Bool :=
  pyContains lower_file "syllabus" &&
    (pyEndswith lower_file ".pdf" || pyEndswith lower_file ".md" ||
      pyEndswith lower_file ".doc" || pyEndswith lower_file "docx")

/-- The chapters heuristic: `"chapter" in lower_file and
lower_file.endswith(('.pptx', '.pdf'))`. -/
def metaPredChapter (lower_file : String) : Bool :=
  pyContains lower_file "chapter" &&
    (pyEndswith lower_file ".pptx" || pyEndswith lower_file ".pdf")

/-- The books heuristic: `lower_file.endswith('.pdf') and "book" in
lower_file`. -/
def metaPredBook (lower_file : String) : Bool :=
  pyEndswith lower_file ".pdf" && pyContains lower_file "book"

/-- The assignments heuristic: `"assignment" in lower_file or "prj" in
lower_file`. -/
def metaPredAssignment (lower_file : String) : Bool :=
  pyContains lower_file "assignment" || pyContains lower_file "prj"

/-- The exams heuristic: `"exam" in lower_file or "midterm" in lower_file
or "final" in lower_file`. -/
def metaPredExam (lower_file : String) : Bool :=
  pyContains lower_file "exam" || pyContains lower_file "midterm" ||
    pyContains lower_file "final"

/-- The per-file classification of `meta.py`'s walk loop: an `elif` chain
of filename heuristics on the lowercased file name, in the order
syllabus, chapters, books, assignments, exams; a file matching none is
dropped. -/
def metaRoute (fm : MetaFiles) (e : String × String) : MetaFiles :=
  let relative_path := relPathOf e.1 e.2
  let lower_file := pyLower e.2
  if metaPredSyllabus lower_file then
    { fm with syllabus := some relative_path }
  else if metaPredChapter lower_file then
    { fm with chapters := fm.chapters ++ [relative_path] }
  else if metaPredBook lower_file then
    { fm with books := fm.books ++ [relative_path] }
  else if metaPredAssignment lower_file then
    { fm with assignments := fm.assignments ++ [relative_path] }
  else if metaPredExam lower_file then
    { fm with exams := fm.exams ++ [relative_path] }
  else fm

/-- `sorted(list(set(lst)))` in `meta.py`. -/
def metaSortSet (lst : List String) : List String :=
  sortByLe strLe (dedupFirst lst)

/-- The per-course record update of `meta.py`: overwrite README fields,
reset `chapters`/`books`/`assignments`/`exams` (the `syllabus` slot is
not reset), rescan, and sort-dedup the four lists. -/
def metaFill (ctx : Ctx) (course_code : String) (d : Details) (folder : String)
    (r0 : MetaRecord) : MetaRecord :=
  let r1 := { r0 with
    course_code := course_code
    title := d.title
    credits := d.credits
    prerequisites := d.prerequisites }
  let fm0 := { r1.files with chapters := [], books := [], assignments := [], exams := [] }
  let fm1 := (walkEntries ctx folder).foldl metaRoute fm0
  let fm2 := { fm1 with
    chapters := metaSortSet fm1.chapters
    books := metaSortSet fm1.books
    assignments := metaSortSet fm1.assignments
    exams := metaSortSet fm1.exams }
  { r1 with files := fm2 }

/-- One iteration of `meta.py`'s per-course loop (no special codes). -/
def metaStep (ctx : Ctx) (folder_map : List (String × String))
    (acc : List (String × MetaRecord) × List Warning) (kd : String × Details) :
    List (String × MetaRecord) × List Warning :=
  match dictGet kd.2.full_code folder_map with
  | none => (acc.1, acc.2 ++ [Warning.noLink kd.1])
  | some folder =>
    if ctx.isDirAt folder then
      let r0 := (dictGet kd.1 acc.1).getD META_TEMPLATE
      (dictSet kd.1 (metaFill ctx kd.1 kd.2 folder r0) acc.1, acc.2)
    else (acc.1, acc.2 ++ [Warning.folderNotDir kd.1 folder])

/-- `meta.py`'s `{course.get('course_code'): course for course in list}`. -/
def metaLoad (existing : List MetaRecord) : List (String × MetaRecord) :=
  existing.foldl (fun m r => dictSet r.course_code r m) []

/-- The core of `meta.py`'s `extract_course_metadata`, after the README is
parsed: when the output file already exists its records are loaded into
the dict and — because the whole per-course loop sits inside the `else`
branch of that existence check — nothing else runs before the dict's
values are written back; only when no output file exists does the loop
process the parsed courses into a fresh dict. -/
def metaRun (ctx : Ctx) (courses : List (String × Details))
    (folder_map : List (String × String)) (existing : Option (List MetaRecord)) :
    List MetaRecord :=
  match existing with
  | some existing_courses_list => dictValues (metaLoad existing_courses_list)
  | none => dictValues (courses.foldl (metaStep ctx folder_map) ([], [])).1

/-! ### Derived forms used by the theorems -/

/-- The modules entries a single walk entry contributes. -/
def entryModules (ctx : Ctx) (folder : String) (e : String × String) : List ContentItem :=
  if pyLower (topLevelOf e.1) = "modules" then
    [mkContentItem ctx folder (relPathOf e.1 e.2)]
  else []

/-- The reference_materials entries a single walk entry contributes. -/
def entryRefs (ctx : Ctx) (folder : String) (e : String × String) : List ContentItem :=
  if pyLower (topLevelOf e.1) = "references" then
    [mkContentItem ctx folder (relPathOf e.1 e.2)]
  else []

/-- The syllabi entries a single walk entry contributes. -/
def entrySyl (ctx : Ctx) (folder : String) (e : String × String) : List ContentItem :=
  if pyLower (topLevelOf e.1) = "syllabi" then
    [mkContentItem ctx folder (relPathOf e.1 e.2)]
  else []

/-- The assignments entries a single walk entry contributes. -/
def entryAsn (e : String × String) : List String :=
  if pyLower (topLevelOf e.1) = "assignments" then
    if pyStartswith (pyUpper (pyBasename e.2)) "EXAM" then [] else [relPathOf e.1 e.2]
  else []

/-- The exams entries a single walk entry contributes. -/
def entryExams (e : String × String) : List String :=
  if pyLower (topLevelOf e.1) = "assignments" then
    if pyStartswith (pyUpper (pyBasename e.2)) "EXAM" then [relPathOf e.1 e.2] else []
  else []

/-- Concatenate the per-entry contributions of a walk. -/
def collectWith (f : String × String → List β) (es : List (String × String)) : List β :=
  es.foldr (fun e acc => f e ++ acc) []

/-- The modules bucket as a function of the scan alone. -/
def scanModules (ctx : Ctx) (folder : String) : List ContentItem :=
  dedup_sort_obj_list (collectWith (entryModules ctx folder) (walkEntries ctx folder))

/-- The reference_materials bucket as a function of the scan alone. -/
def scanRefs (ctx : Ctx) (folder : String) : List ContentItem :=
  dedup_sort_obj_list (collectWith (entryRefs ctx folder) (walkEntries ctx folder))

/-- The syllabi bucket as a function of the scan alone. -/
def scanSyl (ctx : Ctx) (folder : String) : List ContentItem :=
  dedup_sort_obj_list (collectWith (entrySyl ctx folder) (walkEntries ctx folder))

/-- The assignments bucket as a function of the scan alone. -/
def scanAsn (ctx : Ctx) (folder : String) : List String :=
  dedup_sort_list (collectWith entryAsn (walkEntries ctx folder))

/-- The exams bucket as a function of the scan alone. -/
def scanExams (ctx : Ctx) (folder : String) : List String :=
  dedup_sort_list (collectWith entryExams (walkEntries ctx folder))

/-- Every dict entry's record carries its key in `course_code` (true of
loaded catalogs and preserved by the loop). -/
def KeyInv (m : List (String × Record)) : Prop :=
  ∀ p ∈ m, (p.2).course_code = p.1

/-- A catalog dict is post-run stable for one course: if that course's
folder resolves, the stored record is a fixed point of its fill. -/
def StableAt (ctx : Ctx) (folder_map : List (String × String))
    (kd : String × Details) (m : List (String × Record)) : Prop :=
  ∀ folder, resolveFolder ctx folder_map kd.1 kd.2 = some folder →
    ctx.isDirAt folder = true →
    ∃ r, dictGet kd.1 m = some r ∧ fillRecord ctx kd.1 kd.2 folder r = r

/-- The claim's reading of the prerequisites rule: split the trimmed cell
on the literal word `"and"`, trim each piece; an empty (trimmed) cell
yields the empty list. -/
def claimPrereqs (cell : String) : List String :=
  if pyStrip cell = "" then [] else (pySplit "and" (pyStrip cell)).map pyStrip

/-- The claim's reading of the credits rule: the integer value when the
trimmed cell is nonempty and all digits, otherwise 0. -/
def claimCredits (cell : String) : Nat :=
  if pyStrip cell ≠ "" ∧ (pyStrip cell).toList.all isAsciiDigit then
    natOfDigits (pyStrip cell)
  else 0

/-- The part of a code string before its first `/` (the claim's reading of
the primary code). -/
def claimPrimary (s : String) : String :=
  String.mk (s.toList.takeWhile (fun c => !(c = '/')))

/-! ### Concrete fixtures for witnesses and counterexamples -/

/-- A two-line README: one table row and one link-reference line. -/
def readmeFix : String :=
  "| 1 | [CS-2220] | Numerical Methods | 3 | MTH 1112 and MTH 1113 |\n[CS-2220]: ./CS%202220/"

/-- A concrete repository context: the folder `CS 2220` exists and holds a
root file, a module, two assignment files, and an unrecognized folder. -/
def ctxFix : Ctx :=
  { ownerRepo := some "troy/formattin"
    branch := "main"
    rootEntries := []
    isDirAt := fun f => f = "CS 2220"
    walkOf := fun _ =>
      [(".", ["notes.txt"]), ("Modules", ["Week 1.pdf"]),
       ("Assignments", ["Exam1.pdf", "HW1.pdf"]), ("Other", ["x.txt"])] }

/-- The parsed course table of `readmeFix`. -/
def coursesFix : List (String × Details) := parse_course_table_from_readme readmeFix

/-- The parsed link references of `readmeFix`. -/
def folderMapFix : List (String × String) := parse_link_references_from_readme readmeFix

/-- A stale legacy record for `CS-2220`, as an operator-edited catalog
would hold it before a rerun: old title, old credits, old prerequisites,
a stale chapters entry, and an operator description. -/
def staleMetaRecord : MetaRecord :=
  { META_TEMPLATE with
    course_code := "CS-2220"
    title := "Old Title"
    credits := 4
    prerequisites := ["OLD PREREQ"]
    description := "operator text"
    files := { syllabus := none, chapters := ["gone/stale.pdf"], books := [],
               assignments := [], exams := [] } }

/-- A context in which no folder is a directory (every course fails to
resolve). -/
def ctxNoDirs : Ctx :=
  { ownerRepo := none
    branch := "main"
    rootEntries := []
    isDirAt := fun _ => false
    walkOf := fun _ => [] }

/-! ## Theorems

First the generic helper lemmas, then one theorem (plus witness or
counterexample material) per claim. -/

theorem toList_append (a b : String) : (a ++ b).toList = a.toList ++ b.toList := rfl

theorem mk_toList (s : String) : String.mk s.toList = s := rfl

theorem toList_mk (l : List Char) : (String.mk l).toList = l := rfl

theorem dictGet_set_self (k : String) (v : α) (m : List (String × α)) :
    dictGet k (dictSet k v m) = some v := by
  induction m with
  | nil => simp [dictSet, dictGet]
  | cons p rest ih =>
    obtain ⟨k', v'⟩ := p
    by_cases h : k' = k
    · simp [dictSet, dictGet, h]
    · simp [dictSet, dictGet, h, ih]

theorem dictGet_set_ne (k k' : String) (v : α) (m : List (String × α)) (h : k' ≠ k) :
    dictGet k (dictSet k' v m) = dictGet k m := by
  induction m with
  | nil => simp [dictSet, dictGet, h]
  | cons p rest ih =>
    obtain ⟨k₁, v₁⟩ := p
    by_cases h1 : k₁ = k'
    · subst h1
      simp [dictSet, dictGet, h]
    · by_cases h2 : k₁ = k
      · subst h2
        simp [dictSet, dictGet, h1]
      · simp [dictSet, dictGet, h1, h2, ih]

theorem dictSet_get_eq (k : String) (v : α) (m : List (String × α))
    (h : dictGet k m = some v) : dictSet k v m = m := by
  induction m with
  | nil => simp [dictGet] at h
  | cons p rest ih =>
    obtain ⟨k₁, v₁⟩ := p
    by_cases h1 : k₁ = k
    · subst h1
      simp [dictGet] at h
      simp [dictSet, h]
    · simp [dictGet, h1] at h
      simp [dictSet, h1, ih h]

theorem mem_dictSet (k : String) (v : α) (m : List (String × α)) (p : String × α)
    (h : p ∈ dictSet k v m) : p = (k, v) ∨ p ∈ m := by
  induction m with
  | nil => simpa [dictSet] using h
  | cons q rest ih =>
    obtain ⟨k₁, v₁⟩ := q
    by_cases h1 : k₁ = k
    · subst h1
      simp [dictSet] at h
      rcases h with h | h
      · exact Or.inl (by simp [h])
      · exact Or.inr (by simp [h])
    · simp [dictSet, h1] at h
      rcases h with h | h
      · exact Or.inr (by simp [h])
      · rcases ih h with h' | h'
        · exact Or.inl h'
        · exact Or.inr (by simp [h'])

theorem dictKeys_set (k : String) (v : α) (m : List (String × α)) :
    dictKeys (dictSet k v m) =
      if k ∈ dictKeys m then dictKeys m else dictKeys m ++ [k] := by
  induction m with
  | nil => simp [dictSet, dictKeys]
  | cons p rest ih =>
    obtain ⟨k₁, v₁⟩ := p
    by_cases h1 : k₁ = k
    · subst h1
      simp [dictSet, dictKeys]
    · have hset : dictSet k v ((k₁, v₁) :: rest) = (k₁, v₁) :: dictSet k v rest := by
        simp [dictSet, h1]
      rw [hset]
      simp only [dictKeys, List.map_cons] at ih ⊢
      rw [ih]
      by_cases h2 : k ∈ rest.map Prod.fst
      · simp [h2, Ne.symm h1]
      · simp [h2, Ne.symm h1]

theorem nodup_dictKeys_set (k : String) (v : α) (m : List (String × α))
    (h : (dictKeys m).Nodup) : (dictKeys (dictSet k v m)).Nodup := by
  rw [dictKeys_set]
  by_cases hk : k ∈ dictKeys m
  · simpa [hk] using h
  · simp only [hk, if_false]
    simpa [List.nodup_append] using ⟨h, hk⟩

theorem routeFile_eq (ctx : Ctx) (folder : String) (r : Record) (e : String × String) :
    routeFile ctx folder r e =
      { r with
        modules := r.modules ++ entryModules ctx folder e
        reference_materials := r.reference_materials ++ entryRefs ctx folder e
        syllabi := r.syllabi ++ entrySyl ctx folder e
        assignments := r.assignments ++ entryAsn e
        exams := r.exams ++ entryExams e } := by
  simp only [routeFile, entryModules, entryRefs, entrySyl, entryAsn, entryExams]
  split_ifs <;> simp_all

theorem collectWith_cons (f : String × String → List β) (e : String × String)
    (es : List (String × String)) :
    collectWith f (e :: es) = f e ++ collectWith f es := rfl

theorem foldl_routeFile (ctx : Ctx) (folder : String) (es : List (String × String))
    (r : Record) :
    es.foldl (routeFile ctx folder) r =
      { r with
        modules := r.modules ++ collectWith (entryModules ctx folder) es
        reference_materials :=
          r.reference_materials ++ collectWith (entryRefs ctx folder) es
        syllabi := r.syllabi ++ collectWith (entrySyl ctx folder) es
        assignments := r.assignments ++ collectWith entryAsn es
        exams := r.exams ++ collectWith entryExams es } := by
  induction es generalizing r with
  | nil => simp [collectWith]
  | cons e es ih =>
    rw [List.foldl_cons, routeFile_eq, ih]
    simp [collectWith_cons, List.append_assoc]

theorem fillRecord_eq (ctx : Ctx) (k : String) (d : Details) (folder : String)
    (r0 : Record) :
    fillRecord ctx k d folder r0 =
      { r0 with
        course_code := k
        title := d.title
        credits := d.credits
        prerequisites := d.prerequisites
        modules := scanModules ctx folder
        reference_materials := scanRefs ctx folder
        syllabi := scanSyl ctx folder
        assignments := scanAsn ctx folder
        exams := scanExams ctx folder } := by
  simp only [fillRecord, foldl_routeFile, scanModules, scanRefs, scanSyl, scanAsn,
    scanExams, List.nil_append]

theorem fillRecord_fix (ctx : Ctx) (k : String) (d : Details) (folder : String)
    (r : Record) :
    fillRecord ctx k d folder (fillRecord ctx k d folder r) =
      fillRecord ctx k d folder r := by
  simp only [fillRecord_eq]

theorem fillRecord_course_code (ctx : Ctx) (k : String) (d : Details) (folder : String)
    (r : Record) : (fillRecord ctx k d folder r).course_code = k := by
  simp [fillRecord_eq]

theorem stepCourse_split (ctx : Ctx) (fm : List (String × String))
    (m : List (String × Record)) (w : List Warning) (kd : String × Details) :
    stepCourse ctx fm (m, w) kd =
      ((stepCourse ctx fm (m, []) kd).1, w ++ (stepCourse ctx fm (m, []) kd).2) := by
  unfold stepCourse
  cases resolveFolder ctx fm kd.1 kd.2 with
  | none => simp
  | some folder =>
    by_cases hd : ctx.isDirAt folder <;> simp [hd]

theorem foldl_step_split (ctx : Ctx) (fm : List (String × String))
    (cs : List (String × Details)) (m : List (String × Record)) (w : List Warning) :
    cs.foldl (stepCourse ctx fm) (m, w) =
      ((cs.foldl (stepCourse ctx fm) (m, [])).1,
        w ++ (cs.foldl (stepCourse ctx fm) (m, [])).2) := by
  induction cs generalizing m w with
  | nil => simp
  | cons c cs ih =>
    simp only [List.foldl_cons]
    rcases hs : stepCourse ctx fm (m, []) c with ⟨m0, w0⟩
    rw [stepCourse_split, hs, ih m0 (w ++ w0), ih m0 w0]
    simp [List.append_assoc]

theorem step_fst_get_ne (ctx : Ctx) (fm : List (String × String))
    (m : List (String × Record)) (w : List Warning) (kd : String × Details) (k : String)
    (h : kd.1 ≠ k) :
    dictGet k (stepCourse ctx fm (m, w) kd).1 = dictGet k m := by
  unfold stepCourse
  cases resolveFolder ctx fm kd.1 kd.2 with
  | none => simp
  | some folder =>
    by_cases hd : ctx.isDirAt folder <;> simp [hd, dictGet_set_ne _ _ _ _ h]

theorem foldl_get_notmem (ctx : Ctx) (fm : List (String × String))
    (cs : List (String × Details)) (m : List (String × Record)) (w : List Warning)
    (k : String) (h : k ∉ cs.map Prod.fst) :
    dictGet k (cs.foldl (stepCourse ctx fm) (m, w)).1 = dictGet k m := by
  induction cs generalizing m w with
  | nil => simp
  | cons c cs ih =>
    simp only [List.map_cons, List.mem_cons] at h
    push_neg at h
    have h1 : c.1 ≠ k := fun hh => h.1 hh.symm
    rcases hs : stepCourse ctx fm (m, w) c with ⟨m0, w0⟩
    have h2 := step_fst_get_ne ctx fm m w c k h1
    rw [hs] at h2
    simp only [List.foldl_cons, hs]
    rw [ih m0 w0 h.2]
    simpa using h2

theorem processCourses_stable (ctx : Ctx) (fm : List (String × String))
    (cs : List (String × Details)) (m : List (String × Record))
    (hnd : (cs.map Prod.fst).Nodup) :
    ∀ kd ∈ cs, StableAt ctx fm kd (processCourses ctx fm cs m).1 := by
  induction cs generalizing m with
  | nil => simp
  | cons c cs ih =>
    simp only [List.map_cons, List.nodup_cons] at hnd
    obtain ⟨hc, hnd'⟩ := hnd
    intro kd hkd
    unfold processCourses
    simp only [List.foldl_cons]
    rcases hs : stepCourse ctx fm (m, []) c with ⟨m0, w0⟩
    have hfst : (cs.foldl (stepCourse ctx fm) (m0, w0)).1 =
        (cs.foldl (stepCourse ctx fm) (m0, [])).1 := by
      rw [foldl_step_split]
    rw [List.mem_cons] at hkd
    rcases hkd with rfl | hkd
    · intro folder hres hdir
      have hm0 : m0 =
          dictSet kd.1
            (fillRecord ctx kd.1 kd.2 folder ((dictGet kd.1 m).getD COURSE_TEMPLATE)) m := by
        unfold stepCourse at hs
        rw [hres] at hs
        simp only [hdir, if_true] at hs
        have h' := congrArg Prod.fst hs
        simpa using h'.symm
      refine ⟨fillRecord ctx kd.1 kd.2 folder ((dictGet kd.1 m).getD COURSE_TEMPLATE), ?_, ?_⟩
      · rw [foldl_get_notmem ctx fm cs m0 w0 kd.1 hc, hm0, dictGet_set_self]
      · exact fillRecord_fix ctx kd.1 kd.2 folder _
    · have := ih m0 hnd' kd hkd
      unfold processCourses at this
      intro folder hres hdir
      obtain ⟨r, hr, hfix⟩ := this folder hres hdir
      exact ⟨r, by rw [hfst]; exact hr, hfix⟩

theorem processCourses_of_stable (ctx : Ctx) (fm : List (String × String))
    (cs : List (String × Details)) (m : List (String × Record))
    (hst : ∀ kd ∈ cs, StableAt ctx fm kd m) :
    (processCourses ctx fm cs m).1 = m := by
  induction cs with
  | nil => rfl
  | cons c cs ih =>
    unfold processCourses
    simp only [List.foldl_cons]
    have hstep : (stepCourse ctx fm (m, []) c).1 = m := by
      unfold stepCourse
      cases hres : resolveFolder ctx fm c.1 c.2 with
      | none => rfl
      | some folder =>
        by_cases hdir : ctx.isDirAt folder
        · obtain ⟨r, hr, hfix⟩ := hst c (by simp) folder hres hdir
          simp only [hdir, if_true]
          rw [hr]
          simp only [Option.getD_some]
          rw [hfix]
          exact dictSet_get_eq c.1 r m hr
        · simp [hdir]
    rcases hs : stepCourse ctx fm (m, []) c with ⟨m0, w0⟩
    have hm0 : m0 = m := by rw [← hstep, hs]
    subst hm0
    rw [foldl_step_split]
    exact ih (fun kd hkd => hst kd (by simp [hkd]))

theorem loadCatalog_aux_keyInv (L : List Record) (m : List (String × Record))
    (h : KeyInv m) :
    KeyInv (L.foldl (fun m r => dictSet r.course_code r m) m) := by
  induction L generalizing m with
  | nil => exact h
  | cons r L ih =>
    simp only [List.foldl_cons]
    refine ih _ (fun p hp => ?_)
    rcases mem_dictSet _ _ _ _ hp with h' | h'
    · rw [h']
    · exact h p h'

theorem loadCatalog_keyInv (L : List Record) : KeyInv (loadCatalog L) :=
  loadCatalog_aux_keyInv L [] (fun p hp => by simp at hp)

theorem loadCatalog_aux_nodup (L : List Record) (m : List (String × Record))
    (h : (dictKeys m).Nodup) :
    (dictKeys (L.foldl (fun m r => dictSet r.course_code r m) m)).Nodup := by
  induction L generalizing m with
  | nil => exact h
  | cons r L ih =>
    simp only [List.foldl_cons]
    exact ih _ (nodup_dictKeys_set _ _ _ h)

theorem loadCatalog_nodup (L : List Record) : (dictKeys (loadCatalog L)).Nodup :=
  loadCatalog_aux_nodup L [] (by simp [dictKeys])

theorem stepCourse_keyInv (ctx : Ctx) (fm : List (String × String))
    (m : List (String × Record)) (w : List Warning) (kd : String × Details)
    (h : KeyInv m) : KeyInv (stepCourse ctx fm (m, w) kd).1 := by
  unfold stepCourse
  cases resolveFolder ctx fm kd.1 kd.2 with
  | none => exact h
  | some folder =>
    by_cases hdir : ctx.isDirAt folder
    · simp only [hdir, if_true]
      intro p hp
      rcases mem_dictSet _ _ _ _ hp with h' | h'
      · rw [h']
        exact fillRecord_course_code ctx kd.1 kd.2 folder _
      · exact h p h'
    · simp only [hdir, if_false]
      exact h

theorem stepCourse_nodup (ctx : Ctx) (fm : List (String × String))
    (m : List (String × Record)) (w : List Warning) (kd : String × Details)
    (h : (dictKeys m).Nodup) : (dictKeys (stepCourse ctx fm (m, w) kd).1).Nodup := by
  unfold stepCourse
  cases resolveFolder ctx fm kd.1 kd.2 with
  | none => exact h
  | some folder =>
    by_cases hdir : ctx.isDirAt folder
    · simp only [hdir, if_true]
      exact nodup_dictKeys_set _ _ _ h
    · simp only [hdir, if_false]
      exact h

theorem processCourses_keyInv (ctx : Ctx) (fm : List (String × String))
    (cs : List (String × Details)) (m : List (String × Record)) (h : KeyInv m) :
    KeyInv (processCourses ctx fm cs m).1 := by
  suffices haux : ∀ w m, KeyInv m → KeyInv ((cs.foldl (stepCourse ctx fm) (m, w)).1) from
    haux [] m h
  induction cs with
  | nil => intro w m h; exact h
  | cons c cs ih =>
    intro w m h
    simp only [List.foldl_cons]
    rcases hs : stepCourse ctx fm (m, w) c with ⟨m0, w0⟩
    have := stepCourse_keyInv ctx fm m w c h
    rw [hs] at this
    exact ih w0 m0 this

theorem processCourses_nodup (ctx : Ctx) (fm : List (String × String))
    (cs : List (String × Details)) (m : List (String × Record))
    (h : (dictKeys m).Nodup) : (dictKeys (processCourses ctx fm cs m).1).Nodup := by
  suffices haux : ∀ w m, (dictKeys m).Nodup →
      (dictKeys ((cs.foldl (stepCourse ctx fm) (m, w)).1)).Nodup from haux [] m h
  induction cs with
  | nil => intro w m h; exact h
  | cons c cs ih =>
    intro w m h
    simp only [List.foldl_cons]
    rcases hs : stepCourse ctx fm (m, w) c with ⟨m0, w0⟩
    have := stepCourse_nodup ctx fm m w c h
    rw [hs] at this
    exact ih w0 m0 this

theorem loadFold_cons (k : String) (v : Record) (m0 : List (String × Record))
    (rs : List Record) (h : ∀ r ∈ rs, r.course_code ≠ k) :
    rs.foldl (fun m r => dictSet r.course_code r m) ((k, v) :: m0) =
      (k, v) :: rs.foldl (fun m r => dictSet r.course_code r m) m0 := by
  induction rs generalizing m0 with
  | nil => rfl
  | cons r rs ih =>
    simp only [List.foldl_cons]
    have hne : ¬k = r.course_code := fun hh => h r (by simp) hh.symm
    rw [show dictSet r.course_code r ((k, v) :: m0) =
        (k, v) :: dictSet r.course_code r m0 from by simp [dictSet, hne]]
    exact ih (dictSet r.course_code r m0) (fun r' hr' => h r' (by simp [hr']))

theorem loadCatalog_values (m : List (String × Record)) (hinv : KeyInv m)
    (hnd : (dictKeys m).Nodup) : loadCatalog (dictValues m) = m := by
  induction m with
  | nil => rfl
  | cons p m ih =>
    obtain ⟨k, r⟩ := p
    have hk : r.course_code = k := hinv (k, r) (by simp)
    simp only [dictKeys, List.map_cons, List.nodup_cons] at hnd
    obtain ⟨hkm, hnd'⟩ := hnd
    have hvals : ∀ r' ∈ dictValues m, r'.course_code ≠ k := by
      intro r' hr'
      simp only [dictValues, List.mem_map] at hr'
      obtain ⟨p', hp', rfl⟩ := hr'
      have := hinv p' (by simp [hp'])
      rw [this]
      intro hh
      exact hkm (hh ▸ List.mem_map_of_mem Prod.fst hp')
    unfold loadCatalog
    simp only [dictValues, List.map_cons, List.foldl_cons]
    rw [show dictSet r.course_code r [] = [(k, r)] from by simp [dictSet, hk]]
    simp only [dictValues] at hvals
    rw [loadFold_cons k r [] (m.map Prod.snd) hvals]
    have ih' := ih (fun p' hp' => hinv p' (by simp [hp'])) hnd'
    unfold loadCatalog at ih'
    simp only [dictValues] at ih'
    rw [ih']

/-- An existing record with a resolving folder is merged as the closed
form states: README-derived fields overwritten, content buckets rebuilt
from the scan alone, operator fields (`instructors`, `description`,
`current_term`, `classes`, `grading_policy`, `textbooks`, `exam_dates`)
carried over unchanged — the `courseLoader.py` merge contract. -/
theorem stepCourse_existing_record (ctx : Ctx) (fm : List (String × String))
    (m : List (String × Record)) (w : List Warning) (k : String) (d : Details)
    (r : Record) (folder : String)
    (hres : resolveFolder ctx fm k d = some folder)
    (hdir : ctx.isDirAt folder = true)
    (hget : dictGet k m = some r) :
    stepCourse ctx fm (m, w) (k, d) =
      (dictSet k
        { r with
          course_code := k
          title := d.title
          credits := d.credits
          prerequisites := d.prerequisites
          modules := scanModules ctx folder
          reference_materials := scanRefs ctx folder
          syllabi := scanSyl ctx folder
          assignments := scanAsn ctx folder
          exams := scanExams ctx folder } m, w) := by
  unfold stepCourse
  rw [hres]
  simp only [hdir, if_true, hget, Option.getD_some, fillRecord_eq]

/-- C1 (code bug evidence): on a repository whose README row carries the
fresh title "Numerical Methods" and whose folder resolves, `meta.py`'s
`extract_course_metadata` run against an existing catalog holding a stale
`CS-2220` record writes that record back verbatim (stale title, stale
credits, stale prerequisites, stale chapters bucket), because the whole
per-course update loop is nested inside the branch taken only when no
output file exists; the same inputs with no existing catalog do produce
the fresh title, so the update logic exists but is skipped. -/
theorem claim_C1_meta_existing_catalog_stale :
    metaRun ctxFix coursesFix folderMapFix (some [staleMetaRecord]) = [staleMetaRecord] ∧
    staleMetaRecord.title = "Old Title" ∧
    staleMetaRecord.files.chapters = ["gone/stale.pdf"] ∧
    (dictGet "CS-2220" coursesFix).map Details.title = some "Numerical Methods" ∧
    (metaRun ctxFix coursesFix folderMapFix none).map MetaRecord.title =
      ["Numerical Methods"] := by
  refine ⟨by decide, rfl, rfl, by decide, by decide⟩

/-- C2: running the builder core a second time, with the catalog produced
by the first run as the existing catalog and the repository unchanged,
reproduces the first run's output exactly — in particular every content
bucket has the same contents in the same order and every operator-set
field keeps its value. -/
theorem claim_C2_rerun_idempotent (ctx : Ctx) (fm : List (String × String))
    (cs : List (String × Details)) (existing : List Record)
    (h : (cs.map Prod.fst).Nodup) :
    runCatalog ctx fm cs (runCatalog ctx fm cs existing) =
      runCatalog ctx fm cs existing := by
  unfold runCatalog
  have hinv := processCourses_keyInv ctx fm cs (loadCatalog existing)
    (loadCatalog_keyInv existing)
  have hnd := processCourses_nodup ctx fm cs (loadCatalog existing)
    (loadCatalog_nodup existing)
  rw [loadCatalog_values _ hinv hnd,
    processCourses_of_stable ctx fm cs _
      (processCourses_stable ctx fm cs (loadCatalog existing) h)]

/-- Witness for C2 at a concrete README, context and empty prior catalog. -/
theorem claim_C2_rerun_idempotent_witness :
    (coursesFix.map Prod.fst).Nodup ∧
    runCatalog ctxFix folderMapFix coursesFix
        (runCatalog ctxFix folderMapFix coursesFix []) =
      runCatalog ctxFix folderMapFix coursesFix [] :=
  ⟨by decide, claim_C2_rerun_idempotent ctxFix folderMapFix coursesFix [] (by decide)⟩

/-- C7: in the directory-based classifier, a file whose top-level
directory is case-insensitively `assignments` goes to the exams bucket
when its base name starts case-insensitively with `exam` and to the
assignments bucket otherwise (all other fields untouched); a file under
an unrecognized top-level directory, or directly in the course root,
changes nothing. -/
theorem claim_C7_directory_classifier (ctx : Ctx) (folder : String) (r : Record)
    (relDir fname : String) :
    (pyLower (topLevelOf relDir) = "assignments" →
      (pyStartswith (pyUpper (pyBasename fname)) "EXAM" = true →
        routeFile ctx folder r (relDir, fname) =
          { r with exams := r.exams ++ [relPathOf relDir fname] }) ∧
      (pyStartswith (pyUpper (pyBasename fname)) "EXAM" = false →
        routeFile ctx folder r (relDir, fname) =
          { r with assignments := r.assignments ++ [relPathOf relDir fname] })) ∧
    (pyLower (topLevelOf relDir) ∉
        (["modules", "references", "syllabi", "assignments"] : List String) →
      routeFile ctx folder r (relDir, fname) = r) ∧
    (relDir = "." → routeFile ctx folder r (relDir, fname) = r) := by
  have hno : pyLower (topLevelOf relDir) ∉
      (["modules", "references", "syllabi", "assignments"] : List String) →
      routeFile ctx folder r (relDir, fname) = r := by
    intro hnot
    simp only [List.mem_cons, List.mem_singleton, not_or] at hnot
    obtain ⟨h1, h2, h3, h4⟩ := hnot
    simp [routeFile, h1, h2, h3, h4]
  refine ⟨fun hasn => ⟨fun hex => ?_, fun hex => ?_⟩, hno, fun hroot => ?_⟩
  · simp [routeFile, hasn, hex]
  · simp [routeFile, hasn, hex]
  · subst hroot
    refine hno ?_
    decide

/-- Witness for C7: `Assignments/Exam1.pdf` lands in exams,
`Assignments/HW1.pdf` in assignments, `Other/notes.txt` nowhere, and a
course-root file nowhere. -/
theorem claim_C7_directory_classifier_witness :
    (pyLower (topLevelOf "Assignments") = "assignments" ∧
      pyStartswith (pyUpper (pyBasename "Exam1.pdf")) "EXAM" = true ∧
      routeFile ctxFix "CS 2220" COURSE_TEMPLATE ("Assignments", "Exam1.pdf") =
        { COURSE_TEMPLATE with exams := ["Assignments/Exam1.pdf"] }) ∧
    (pyStartswith (pyUpper (pyBasename "HW1.pdf")) "EXAM" = false ∧
      routeFile ctxFix "CS 2220" COURSE_TEMPLATE ("Assignments", "HW1.pdf") =
        { COURSE_TEMPLATE with assignments := ["Assignments/HW1.pdf"] }) ∧
    (pyLower (topLevelOf "Other") ∉
        (["modules", "references", "syllabi", "assignments"] : List String) ∧
      routeFile ctxFix "CS 2220" COURSE_TEMPLATE ("Other", "notes.txt") =
        COURSE_TEMPLATE) ∧
    routeFile ctxFix "CS 2220" COURSE_TEMPLATE (".", "notes.txt") = COURSE_TEMPLATE := by
  refine ⟨⟨by decide, by decide, ?_⟩, ⟨by decide, ?_⟩, ⟨by decide, ?_⟩, ?_⟩
  · have h := (claim_C7_directory_classifier ctxFix "CS 2220" COURSE_TEMPLATE
      "Assignments" "Exam1.pdf").1 (by decide) |>.1 (by decide)
    simpa using h
  · have h := (claim_C7_directory_classifier ctxFix "CS 2220" COURSE_TEMPLATE
      "Assignments" "HW1.pdf").1 (by decide) |>.2 (by decide)
    simpa using h
  · exact (claim_C7_directory_classifier ctxFix "CS 2220" COURSE_TEMPLATE
      "Other" "notes.txt").2.1 (by decide)
  · exact (claim_C7_directory_classifier ctxFix "CS 2220" COURSE_TEMPLATE
      "." "notes.txt").2.2 rfl

/-- C8: a course whose folder does not resolve (no link-reference entry
for its full code, or the resolved path is not a directory) adds exactly
one warning, leaves the whole catalog dict — in particular its own entry —
exactly as loaded, and the remaining courses are processed as if it were
absent: the run does not abort. -/
theorem claim_C8_skip_on_missing_folder (ctx : Ctx) (fm : List (String × String))
    (k : String) (d : Details) (rest : List (String × Details))
    (m : List (String × Record))
    (hres : resolveFolder ctx fm k d = none ∨
      ∃ folder, resolveFolder ctx fm k d = some folder ∧ ctx.isDirAt folder = false)
    (hrest : k ∉ rest.map Prod.fst) :
    (processCourses ctx fm ((k, d) :: rest) m).1 = (processCourses ctx fm rest m).1 ∧
    dictGet k (processCourses ctx fm ((k, d) :: rest) m).1 = dictGet k m ∧
    ∃ w, (processCourses ctx fm ((k, d) :: rest) m).2 =
      w :: (processCourses ctx fm rest m).2 := by
  have hstep : ∃ w, stepCourse ctx fm (m, []) (k, d) = (m, [w]) := by
    rcases hres with hnone | ⟨folder, hsome, hdir⟩
    · refine ⟨if k ∈ special_codes then Warning.noSpecialFolder k
        else Warning.noLink k, ?_⟩
      unfold stepCourse
      rw [hnone]
      rfl
    · refine ⟨Warning.folderNotDir k folder, ?_⟩
      unfold stepCourse
      rw [hsome]
      simp [hdir]
  obtain ⟨w, hw⟩ := hstep
  unfold processCourses
  simp only [List.foldl_cons, hw]
  refine ⟨?_, ?_, ⟨w, ?_⟩⟩
  · rw [foldl_step_split]
  · exact foldl_get_notmem ctx fm rest m [w] k hrest
  · rw [foldl_step_split ctx fm rest m [w]]
    rfl

/-- Witness for C8: in a context with no directories, the only course of
the parsed README is skipped with a warning and the loaded catalog (one
unrelated record) is returned untouched. -/
theorem claim_C8_skip_on_missing_folder_witness :
    (∃ folder, resolveFolder ctxNoDirs folderMapFix "CS-2220"
        { full_code := "CS-2220", title := "Numerical Methods", credits := 3,
          prerequisites := ["MTH 1112", "MTH 1113"] } = some folder ∧
      ctxNoDirs.isDirAt folder = false) ∧
    ("CS-2220" : String) ∉ ([] : List (String × Details)).map Prod.fst ∧
    (processCourses ctxNoDirs folderMapFix
        [("CS-2220",
          { full_code := "CS-2220", title := "Numerical Methods", credits := 3,
            prerequisites := ["MTH 1112", "MTH 1113"] })]
        [("X-1", COURSE_TEMPLATE)]).1 =
      (processCourses ctxNoDirs folderMapFix [] [("X-1", COURSE_TEMPLATE)]).1 ∧
    dictGet "CS-2220"
        (processCourses ctxNoDirs folderMapFix
          [("CS-2220",
            { full_code := "CS-2220", title := "Numerical Methods", credits := 3,
              prerequisites := ["MTH 1112", "MTH 1113"] })]
          [("X-1", COURSE_TEMPLATE)]).1 =
      dictGet "CS-2220" [("X-1", COURSE_TEMPLATE)] := by
  refine ⟨⟨"CS 2220", by decide, rfl⟩, by decide, ?_, ?_⟩
  · exact (claim_C8_skip_on_missing_folder ctxNoDirs folderMapFix "CS-2220" _ [] _
      (Or.inr ⟨"CS 2220", by decide, rfl⟩) (by decide)).1
  · exact (claim_C8_skip_on_missing_folder ctxNoDirs folderMapFix "CS-2220" _ [] _
      (Or.inr ⟨"CS 2220", by decide, rfl⟩) (by decide)).2.1

/-- C9: the legacy filename-heuristic classifier tests its predicates in
the fixed order syllabus, chapters, books, assignments, exams; a file is
recorded only under the first predicate that holds (every other field is
untouched), a file matching none is dropped, and in particular
`final_assignment.pdf` — which also satisfies the exams predicate — goes
to assignments, not exams.  Hence one file never lands in two buckets. -/
theorem claim_C9_meta_first_match (fm : MetaFiles) (relDir fname : String) :
    (metaPredSyllabus (pyLower fname) = true →
      metaRoute fm (relDir, fname) =
        { fm with syllabus := some (relPathOf relDir fname) }) ∧
    (metaPredSyllabus (pyLower fname) = false →
      metaPredChapter (pyLower fname) = true →
      metaRoute fm (relDir, fname) =
        { fm with chapters := fm.chapters ++ [relPathOf relDir fname] }) ∧
    (metaPredSyllabus (pyLower fname) = false →
      metaPredChapter (pyLower fname) = false →
      metaPredBook (pyLower fname) = true →
      metaRoute fm (relDir, fname) =
        { fm with books := fm.books ++ [relPathOf relDir fname] }) ∧
    (metaPredSyllabus (pyLower fname) = false →
      metaPredChapter (pyLower fname) = false →
      metaPredBook (pyLower fname) = false →
      metaPredAssignment (pyLower fname) = true →
      metaRoute fm (relDir, fname) =
        { fm with assignments := fm.assignments ++ [relPathOf relDir fname] }) ∧
    (metaPredSyllabus (pyLower fname) = false →
      metaPredChapter (pyLower fname) = false →
      metaPredBook (pyLower fname) = false →
      metaPredAssignment (pyLower fname) = false →
      metaPredExam (pyLower fname) = true →
      metaRoute fm (relDir, fname) =
        { fm with exams := fm.exams ++ [relPathOf relDir fname] }) ∧
    (metaPredSyllabus (pyLower fname) = false →
      metaPredChapter (pyLower fname) = false →
      metaPredBook (pyLower fname) = false →
      metaPredAssignment (pyLower fname) = false →
      metaPredExam (pyLower fname) = false →
      metaRoute fm (relDir, fname) = fm) ∧
    (metaPredAssignment (pyLower "final_assignment.pdf") = true ∧
      metaPredExam (pyLower "final_assignment.pdf") = true ∧
      metaRoute fm (relDir, "final_assignment.pdf") =
        { fm with assignments :=
            fm.assignments ++ [relPathOf relDir "final_assignment.pdf"] }) := by
  refine ⟨fun h1 => by simp [metaRoute, h1],
    fun h1 h2 => by simp [metaRoute, h1, h2],
    fun h1 h2 h3 => by simp [metaRoute, h1, h2, h3],
    fun h1 h2 h3 h4 => by simp [metaRoute, h1, h2, h3, h4],
    fun h1 h2 h3 h4 h5 => by simp [metaRoute, h1, h2, h3, h4, h5],
    fun h1 h2 h3 h4 h5 => by simp [metaRoute, h1, h2, h3, h4, h5],
    by decide, by decide, ?_⟩
  have h1 : metaPredSyllabus (pyLower "final_assignment.pdf") = false := by decide
  have h2 : metaPredChapter (pyLower "final_assignment.pdf") = false := by decide
  have h3 : metaPredBook (pyLower "final_assignment.pdf") = false := by decide
  have h4 : metaPredAssignment (pyLower "final_assignment.pdf") = true := by decide
  simp [metaRoute, h1, h2, h3, h4]

/-- Witness for C9 at a syllabus-matching file, a books-matching file and
a no-match file. -/
theorem claim_C9_meta_first_match_witness :
    (metaPredSyllabus (pyLower "Syllabus.pdf") = true ∧
      metaRoute META_TEMPLATE.files ("Syllabi", "Syllabus.pdf") =
        { META_TEMPLATE.files with syllabus := some "Syllabi/Syllabus.pdf" }) ∧
    (metaPredSyllabus (pyLower "textbook.pdf") = false ∧
      metaPredChapter (pyLower "textbook.pdf") = false ∧
      metaPredBook (pyLower "textbook.pdf") = true ∧
      metaRoute META_TEMPLATE.files ("Books", "textbook.pdf") =
        { META_TEMPLATE.files with books := ["Books/textbook.pdf"] }) ∧
    metaRoute META_TEMPLATE.files (".", "notes.txt") = META_TEMPLATE.files := by
  refine ⟨⟨by decide, ?_⟩, ⟨by decide, by decide, by decide, ?_⟩, ?_⟩
  · have h := (claim_C9_meta_first_match META_TEMPLATE.files "Syllabi" "Syllabus.pdf").1
      (by decide)
    simpa using h
  · have h := (claim_C9_meta_first_match META_TEMPLATE.files "Books" "textbook.pdf").2.2.1
      (by decide) (by decide) (by decide)
    simpa using h
  · exact (claim_C9_meta_first_match META_TEMPLATE.files "." "notes.txt").2.2.2.2.2.1
      (by decide) (by decide) (by decide) (by decide) (by decide)

theorem listIsPre_append_left (p l r : List Char) (h : p.length ≤ l.length) :
    listIsPre p (l ++ r) = listIsPre p l := by
  induction p generalizing l with
  | nil => simp [listIsPre]
  | cons a as ih =>
    cases l with
    | nil => simp at h
    | cons b bs =>
      simp only [List.cons_append, listIsPre, List.append_eq]
      rw [ih bs (by simpa using h)]

theorem listIsPre_self_append (l r : List Char) : listIsPre l (l ++ r) = true := by
  induction l with
  | nil => rfl
  | cons a as ih => simpa [listIsPre] using ih

theorem listIsPre_append_both (x y z : List Char) :
    listIsPre (x ++ y) (x ++ z) = listIsPre y z := by
  induction x with
  | nil => rfl
  | cons a as ih => simpa [listIsPre] using ih

theorem dropWhile_append_of_exists (p : Char → Bool) (l₁ l₂ : List Char)
    (h : ∃ c ∈ l₁, p c = false) :
    (l₁ ++ l₂).dropWhile p = l₁.dropWhile p ++ l₂ := by
  induction l₁ with
  | nil => simp at h
  | cons c cs ih =>
    by_cases hc : p c
    · obtain ⟨c', hc', hpc'⟩ := h
      rcases List.mem_cons.mp hc' with rfl | hmem
      · rw [hc] at hpc'
        cases hpc'
      · simp [List.dropWhile_cons, hc, ih ⟨c', hmem, hpc'⟩]
    · simp [List.dropWhile_cons, hc]

theorem pyRstripSet_append (chars : List Char) (a s : String)
    (h : ∃ c ∈ s.toList, c ∉ chars) :
    pyRstripSet chars (a ++ s) = a ++ pyRstripSet chars s := by
  unfold pyRstripSet
  rw [toList_append, List.reverse_append,
    dropWhile_append_of_exists _ _ _
      (by
        obtain ⟨c, hc, hnc⟩ := h
        exact ⟨c, List.mem_reverse.mpr hc, by simpa using hnc⟩),
    List.reverse_append, List.reverse_reverse]
  rfl

theorem dropPreQ_self (l r : List Char) : dropPreQ l (l ++ r) = some r := by
  induction l with
  | nil => rfl
  | cons a as ih => simpa [dropPreQ] using ih

theorem splitOnceRest_self_append (sep r : List Char) (h : sep ≠ []) :
    splitOnceRest sep (sep ++ r) = some r := by
  cases sep with
  | nil => exact absurd rfl h
  | cons c cs =>
    show splitOnceRest (c :: cs) (c :: (cs ++ r)) = some r
    unfold splitOnceRest
    simp [dropPreQ, dropPreQ_self]

/-- C10: the owner/repo string is produced by `rstrip('.git')`, which
strips every trailing character from the set `{'.', 'g', 'i', 't'}` — not
just a `.git` suffix — so a repository name such as `formatting` loses its
own trailing characters, and every raw link built for it embeds the
truncated name `formattin`. -/
theorem claim_C10_rstrip_git_charset :
    (∀ s : String, (∃ c ∈ s.toList, c ∉ gitChars) →
      _extract_owner_repo ("https://github.com/" ++ s) =
        some (pyRstripSet gitChars s)) ∧
    _extract_owner_repo "https://github.com/troy/formatting.git" =
      some "troy/formattin" ∧
    _extract_owner_repo "https://github.com/troy/formatting.git" ≠
      some "troy/formatting" ∧
    (∀ branch rel, pyStartswith (_build_raw_url "troy/formattin" branch rel)
      "https://raw.githubusercontent.com/troy/formattin/" = true) ∧
    _build_raw_url "troy/formattin" "main" "CS 2220/Modules/Week 1.pdf" =
      "https://raw.githubusercontent.com/troy/formattin/main/CS%202220/Modules/Week%201.pdf" := by
  refine ⟨?_, by decide, by decide, ?_, by decide⟩
  · intro s hs
    have hne : ¬("https://github.com/" ++ s) = "" := by
      intro h
      have h2 := congrArg String.toList h
      rw [show ("https://github.com/" ++ s).toList =
        'h' :: ("ttps://github.com/".toList ++ s.toList) from rfl] at h2
      exact List.cons_ne_nil _ _ (h2.trans rfl)
    have hstrip : pyRstripSet gitChars ("https://github.com/" ++ s) =
        "https://github.com/" ++ pyRstripSet gitChars s :=
      pyRstripSet_append gitChars _ s hs
    have hgit : pyStartswith ("https://github.com/" ++ pyRstripSet gitChars s)
        "git@github.com:" = false := by
      unfold pyStartswith
      rw [toList_append, listIsPre_append_left _ _ _ (by decide)]
      decide
    have hhttps : pyStartswith ("https://github.com/" ++ pyRstripSet gitChars s)
        "https://github.com/" = true := by
      unfold pyStartswith
      rw [toList_append]
      exact listIsPre_self_append _ _
    have hsplit : pySplitOnceSnd "https://github.com/"
        ("https://github.com/" ++ pyRstripSet gitChars s) = pyRstripSet gitChars s := by
      unfold pySplitOnceSnd
      rw [show ("https://github.com/" ++ pyRstripSet gitChars s).toList =
        "https://github.com/".toList ++ (pyRstripSet gitChars s).toList from rfl]
      rw [splitOnceRest_self_append _ _ (by decide)]
      exact mk_toList _
    unfold _extract_owner_repo
    rw [if_neg hne]
    simp only [hstrip, hgit, hhttps, Bool.false_eq_true, if_false, if_true, hsplit]
  · intro branch rel
    unfold _build_raw_url pyStartswith
    simp only [toList_append, List.append_assoc]
    rw [show "https://raw.githubusercontent.com/troy/formattin/".toList =
      "https://raw.githubusercontent.com/".toList ++
        ("troy/formattin".toList ++ "/".toList) from by decide]
    rw [listIsPre_append_both, listIsPre_append_both]
    exact listIsPre_self_append _ _

/-- Witness for C10 at the remote URL of a repository named `formatting`. -/
theorem claim_C10_rstrip_git_charset_witness :
    (∃ c ∈ ("troy/formatting.git" : String).toList, c ∉ gitChars) ∧
    _extract_owner_repo ("https://github.com/" ++ "troy/formatting.git") =
      some (pyRstripSet gitChars "troy/formatting.git") :=
  ⟨by decide, claim_C10_rstrip_git_charset.1 "troy/formatting.git" (by decide)⟩

theorem toList_eq_nil_iff (s : String) : s.toList = [] ↔ s = "" := by
  obtain ⟨data⟩ := s
  constructor
  · intro h
    rw [show data = [] from h]
  · intro h
    rw [h]
    rfl

/-- `str.isdigit` holds exactly for nonempty all-digit strings. -/
theorem pyIsdigit_iff (s : String) :
    pyIsdigit s = true ↔ s ≠ "" ∧ s.toList.all isAsciiDigit = true := by
  unfold pyIsdigit
  rw [Bool.and_eq_true, Bool.not_eq_true']
  rw [List.isEmpty_eq_false_iff_exists_mem]
  constructor
  · rintro ⟨⟨c, hc⟩, hall⟩
    refine ⟨?_, hall⟩
    intro h
    rw [h] at hc
    simp at hc
  · rintro ⟨hne, hall⟩
    refine ⟨?_, hall⟩
    rcases hl : s.toList with _ | ⟨c, cs⟩
    · exact absurd ((toList_eq_nil_iff s).mp hl) hne
    · exact ⟨c, by simp [hl]⟩

/-- The credits computed by the parser equal the claim's reading. -/
theorem credits_eq_claim (cell : String) :
    (if pyIsdigit (pyStrip cell) then natOfDigits (pyStrip cell) else 0) =
      claimCredits cell := by
  unfold claimCredits
  by_cases h : pyIsdigit (pyStrip cell)
  · rw [if_pos h, if_pos ((pyIsdigit_iff (pyStrip cell)).mp h)]
  · rw [if_neg h, if_neg (fun hc => h ((pyIsdigit_iff (pyStrip cell)).mpr hc))]

/-- C3: for every matched table row, the prerequisites field is the
trimmed cell split on the literal substring `"and"` with each piece
trimmed, and a cell that trims to empty yields the empty list. -/
theorem claim_C3_prerequisites_split :
    (∀ (line : String) (g : String × String × String × String),
      searchRow line.toList = some g →
      ∃ k d, detailsOfGroups g = (k, d) ∧ d.prerequisites = claimPrereqs g.2.2.2) ∧
    claimPrereqs "   " = [] ∧
    claimPrereqs " MTH 1112 and MTH 1113 " = ["MTH 1112", "MTH 1113"] := by
  refine ⟨fun line g _ => ⟨_, _, rfl, ?_⟩, by decide, by decide⟩
  rfl

/-- Witness for C3 at a row with an empty prerequisites cell. -/
theorem claim_C3_prerequisites_split_witness :
    searchRow "| 3 | [X-1] | T | 2 |   |".toList = some ("X-1", " T ", " 2 ", "   ") ∧
    ∃ k d, detailsOfGroups ("X-1", " T ", " 2 ", "   ") = (k, d) ∧
      d.prerequisites = claimPrereqs "   " := by
  refine ⟨by decide, claim_C3_prerequisites_split.1 "| 3 | [X-1] | T | 2 |   |"
    ("X-1", " T ", " 2 ", "   ") (by decide)⟩

/-- C4: for every matched table row, the credits field is the integer
value of the trimmed credits cell when that cell is all digits, and 0
otherwise — e.g. for the cell `TBD` — with no error raised (the parse is
total). -/
theorem claim_C4_credits_fallback :
    (∀ (line : String) (g : String × String × String × String),
      searchRow line.toList = some g →
      ∃ k d, detailsOfGroups g = (k, d) ∧ d.credits = claimCredits g.2.2.1) ∧
    claimCredits " TBD " = 0 ∧
    claimCredits " 3 " = 3 := by
  refine ⟨fun line g _ => ⟨_, _, rfl, ?_⟩, by decide, by decide⟩
  exact credits_eq_claim g.2.2.1

/-- Witness for C4 at a row whose credits cell is `TBD`. -/
theorem claim_C4_credits_fallback_witness :
    searchRow "| 3 | [X-1] | T | TBD | P |".toList =
      some ("X-1", " T ", " TBD ", " P ") ∧
    ∃ k d, detailsOfGroups ("X-1", " T ", " TBD ", " P ") = (k, d) ∧
      d.credits = claimCredits " TBD " := by
  refine ⟨by decide, claim_C4_credits_fallback.1 "| 3 | [X-1] | T | TBD | P |"
    ("X-1", " T ", " TBD ", " P ") (by decide)⟩

theorem headD_map (f : α → β) (l : List α) (d : α) :
    (l.map f).headD (f d) = f (l.headD d) := by
  cases l <;> rfl

theorem pySplitAux_headD (s0 : Char) (acc : List Char) (fuel : Nat) (l : List Char)
    (h : l.length ≤ fuel) :
    (pySplitAux s0 [] acc fuel l).headD [] =
      acc.reverse ++ l.takeWhile (fun c => !(c = s0)) := by
  induction fuel generalizing acc l with
  | zero =>
    cases l with
    | nil => simp [pySplitAux]
    | cons c cs => simp at h
  | succ n ih =>
    cases l with
    | nil => simp [pySplitAux]
    | cons c cs =>
      by_cases hc : c = s0
      · subst hc
        simp [pySplitAux, dropPreQ]
      · rw [show pySplitAux s0 [] acc (n + 1) (c :: cs) =
          pySplitAux s0 [] (c :: acc) n cs from by simp [pySplitAux, hc]]
        rw [ih (c :: acc) cs (by simpa using Nat.le_of_succ_le_succ h)]
        simp [hc]

/-- `code_raw.split('/')[0]` is the part of `code_raw` before its first
slash. -/
theorem pySplit_slash_headD (s : String) :
    (pySplit "/" s).headD "" = claimPrimary s := by
  unfold pySplit claimPrimary
  rw [show ("/" : String).toList = ['/'] from rfl]
  show (List.map String.mk _).headD (String.mk []) = _
  rw [headD_map, pySplitAux_headD '/' [] s.toList.length s.toList le_rfl]
  rfl

/-- C5: the example row parses to the stated entry; for every matched
row the stored key (primary code) is the trimmed code cell up to the
first `/` while `full_code` is the whole trimmed cell; and the alias row
`CS-2220/CS-2221` illustrates both. -/
theorem claim_C5_primary_and_full_code :
    parse_course_table_from_readme
        "| 1 | [CS-2220] | Numerical Methods | 3 | MTH 1112 and MTH 1113 |" =
      [("CS-2220",
        { full_code := "CS-2220", title := "Numerical Methods", credits := 3,
          prerequisites := ["MTH 1112", "MTH 1113"] })] ∧
    (∀ (line : String) (g : String × String × String × String),
      searchRow line.toList = some g →
      (detailsOfGroups g).1 = claimPrimary (pyStrip g.1) ∧
      (detailsOfGroups g).2.full_code = pyStrip g.1) ∧
    parse_course_table_from_readme "| 2 | CS-2220/CS-2221 | Joint | 3 | None |" =
      [("CS-2220",
        { full_code := "CS-2220/CS-2221", title := "Joint", credits := 3,
          prerequisites := ["None"] })] := by
  refine ⟨by decide, fun line g _ => ⟨?_, rfl⟩, by decide⟩
  exact pySplit_slash_headD (pyStrip g.1)

/-- Witness for C5 at the alias row. -/
theorem claim_C5_primary_and_full_code_witness :
    searchRow "| 2 | CS-2220/CS-2221 | Joint | 3 | None |".toList =
      some ("CS-2220/CS-2221", " Joint ", " 3 ", " None ") ∧
    (detailsOfGroups ("CS-2220/CS-2221", " Joint ", " 3 ", " None ")).1 =
      claimPrimary (pyStrip "CS-2220/CS-2221") ∧
    (detailsOfGroups ("CS-2220/CS-2221", " Joint ", " 3 ", " None ")).2.full_code =
      pyStrip "CS-2220/CS-2221" := by
  refine ⟨by decide, claim_C5_primary_and_full_code.2.1
    "| 2 | CS-2220/CS-2221 | Joint | 3 | None |"
    ("CS-2220/CS-2221", " Joint ", " 3 ", " None ") (by decide)⟩

theorem takeWhile_all (p : Char → Bool) (l : List Char) (h : ∀ c ∈ l, p c = true) :
    l.takeWhile p = l := by
  induction l with
  | nil => rfl
  | cons c cs ih =>
    simp [List.takeWhile_cons, h c (by simp), ih (fun c' hc' => h c' (by simp [hc']))]

theorem dropWhile_all (p : Char → Bool) (l : List Char) (h : ∀ c ∈ l, p c = true) :
    l.dropWhile p = [] := by
  induction l with
  | nil => rfl
  | cons c cs ih =>
    simp [List.dropWhile_cons, h c (by simp), ih (fun c' hc' => h c' (by simp [hc']))]

theorem takeWhile_append_cons (p : Char → Bool) (l₁ : List Char) (b : Char)
    (l₂ : List Char) (h1 : ∀ c ∈ l₁, p c = true) (hb : p b = false) :
    (l₁ ++ b :: l₂).takeWhile p = l₁ := by
  induction l₁ with
  | nil => simp [List.takeWhile_cons, hb]
  | cons c cs ih =>
    simp [List.takeWhile_cons, h1 c (by simp),
      ih (fun c' hc' => h1 c' (by simp [hc']))]

theorem dropWhile_append_cons (p : Char → Bool) (l₁ : List Char) (b : Char)
    (l₂ : List Char) (h1 : ∀ c ∈ l₁, p c = true) (hb : p b = false) :
    (l₁ ++ b :: l₂).dropWhile p = b :: l₂ := by
  induction l₁ with
  | nil => simp [List.dropWhile_cons, hb]
  | cons c cs ih =>
    simp [List.dropWhile_cons, h1 c (by simp),
      ih (fun c' hc' => h1 c' (by simp [hc']))]

/-- The link matcher accepts every line of the documented shape. -/
theorem matchLinkAt_wellformed (labL pathL tailL : List Char)
    (hlab : labL ≠ []) (hlabc : ∀ c ∈ labL, (!(c = ']')) = true)
    (hpath : pathL ≠ []) (hpathc : ∀ c ∈ pathL, (!(c = '/')) = true)
    (htail : tailL = [] ∨ tailL = ['/']) :
    matchLinkAt
        ('[' :: (labL ++ ']' :: ':' :: ' ' :: '.' :: '/' :: (pathL ++ tailL))) =
      some (String.mk labL, String.mk pathL) := by
  have hlabE : labL.isEmpty = false := by
    cases labL with
    | nil => exact absurd rfl hlab
    | cons a l => rfl
  have hpathE : pathL.isEmpty = false := by
    cases pathL with
    | nil => exact absurd rfl hpath
    | cons a l => rfl
  have hsp : (' ' :: '.' :: '/' :: (pathL ++ tailL)).dropWhile isPySpace =
      '.' :: '/' :: (pathL ++ tailL) := by
    rw [List.dropWhile_cons, if_pos (show isPySpace ' ' = true from rfl),
      List.dropWhile_cons, if_neg (by decide)]
  simp only [matchLinkAt]
  rw [if_pos trivial,
    takeWhile_append_cons (fun c => !(c = ']')) labL ']'
      (':' :: ' ' :: '.' :: '/' :: (pathL ++ tailL)) hlabc (by decide),
    if_neg (by simp [hlabE]),
    dropWhile_append_cons (fun c => !(c = ']')) labL ']'
      (':' :: ' ' :: '.' :: '/' :: (pathL ++ tailL)) hlabc (by decide)]
  simp only [linkAfterLabel]
  rw [if_pos ⟨trivial, trivial⟩]
  simp only [linkAfterColon, hsp]
  rw [if_pos ⟨trivial, trivial⟩]
  simp only [linkAfterDot]
  rcases htail with rfl | rfl
  · rw [List.append_nil, takeWhile_all (fun c => !(c = '/')) pathL hpathc,
      dropWhile_all (fun c => !(c = '/')) pathL hpathc,
      if_neg (by simp [hpathE]), if_pos (Or.inl rfl)]
  · rw [takeWhile_append_cons (fun c => !(c = '/')) pathL '/' [] hpathc (by decide),
      dropWhile_append_cons (fun c => !(c = '/')) pathL '/' [] hpathc (by decide),
      if_neg (by simp [hpathE]), if_pos (Or.inr rfl)]

/-- A successful match at the head is what `search` returns. -/
theorem searchLink_head (c : Char) (rest : List Char) (x : String × String)
    (h : matchLinkAt (c :: rest) = some x) : searchLink (c :: rest) = some x := by
  unfold searchLink
  rw [h]

/-- Inversion of `search`: a hit is a hit of the anchored matcher at some
position. -/
theorem searchLink_inv (l : List Char) (x : String × String)
    (h : searchLink l = some x) :
    ∃ pre suf, l = pre ++ suf ∧ matchLinkAt suf = some x := by
  induction l with
  | nil => simp [searchLink] at h
  | cons c rest ih =>
    unfold searchLink at h
    cases hm : matchLinkAt (c :: rest) with
    | some g =>
      rw [hm] at h
      simp at h
      exact ⟨[], c :: rest, rfl, by rw [hm, h]⟩
    | none =>
      rw [hm] at h
      simp at h
      obtain ⟨pre, suf, hpre, hmp⟩ := ih h
      exact ⟨c :: pre, suf, by simp [hpre], hmp⟩

/-- Inversion of the anchored link matcher: a hit decomposes the input
into exactly the documented shape. -/
theorem matchLinkAt_inv (cs : List Char) (lab fol : String)
    (h : matchLinkAt cs = some (lab, fol)) :
    ∃ labL spL pathL tailL,
      cs = '[' :: (labL ++ ']' :: ':' :: (spL ++ '.' :: '/' :: (pathL ++ tailL))) ∧
      labL ≠ [] ∧ (∀ c ∈ labL, ¬(c = ']')) ∧ (∀ c ∈ spL, isPySpace c = true) ∧
      pathL ≠ [] ∧ (∀ c ∈ pathL, ¬(c = '/')) ∧ (tailL = [] ∨ tailL = ['/']) ∧
      lab = String.mk labL ∧ fol = String.mk pathL := by
  cases cs with
  | nil => simp [matchLinkAt] at h
  | cons c0 cs1 =>
    simp only [matchLinkAt] at h
    by_cases hc0 : c0 = '['
    · subst hc0
      rw [if_pos rfl] at h
      by_cases hE : (cs1.takeWhile (fun c => !(c = ']'))).isEmpty
      · rw [if_pos hE] at h
        cases h
      · rw [if_neg hE] at h
        rcases hrest : cs1.dropWhile (fun c => !(c = ']')) with _ | ⟨c1, rest1⟩
        · rw [hrest] at h
          simp [linkAfterLabel] at h
        · rcases rest1 with _ | ⟨c2, cs2⟩
          · rw [hrest] at h
            simp [linkAfterLabel] at h
          · rw [hrest] at h
            simp only [linkAfterLabel] at h
            by_cases h12 : c1 = ']' ∧ c2 = ':'
            · rw [if_pos h12] at h
              obtain ⟨rfl, rfl⟩ := h12
              rcases hsp : cs2.dropWhile isPySpace with _ | ⟨c3, rest3⟩
              · simp [linkAfterColon, hsp] at h
              · rcases rest3 with _ | ⟨c4, cs3⟩
                · simp [linkAfterColon, hsp] at h
                · simp only [linkAfterColon, hsp] at h
                  by_cases h34 : c3 = '.' ∧ c4 = '/'
                  · rw [if_pos h34] at h
                    obtain ⟨rfl, rfl⟩ := h34
                    simp only [linkAfterDot] at h
                    by_cases hpE : (cs3.takeWhile (fun c => !(c = '/'))).isEmpty
                    · rw [if_pos hpE] at h
                      cases h
                    · rw [if_neg hpE] at h
                      by_cases htl : cs3.dropWhile (fun c => !(c = '/')) = [] ∨
                          cs3.dropWhile (fun c => !(c = '/')) = ['/']
                      · rw [if_pos htl] at h
                        injection h with h'
                        injection h' with hl hf
                        refine ⟨cs1.takeWhile (fun c => !(c = ']')),
                          cs2.takeWhile isPySpace,
                          cs3.takeWhile (fun c => !(c = '/')),
                          cs3.dropWhile (fun c => !(c = '/')),
                          ?_, ?_, ?_, ?_, ?_, ?_, htl, hl.symm, hf.symm⟩
                        · have e1 : cs1 = cs1.takeWhile (fun c => !(c = ']')) ++
                              ']' :: ':' :: cs2 := by
                            conv_lhs => rw [← List.takeWhile_append_dropWhile
                              (fun c => !(c = ']')) cs1]
                            rw [hrest]
                          have e2 : cs2 = cs2.takeWhile isPySpace ++
                              '.' :: '/' :: cs3 := by
                            conv_lhs => rw [← List.takeWhile_append_dropWhile
                              isPySpace cs2]
                            rw [hsp]
                          have e3 : cs3 = cs3.takeWhile (fun c => !(c = '/')) ++
                              cs3.dropWhile (fun c => !(c = '/')) :=
                            (List.takeWhile_append_dropWhile _ _).symm
                          rw [e3] at e2
                          rw [e2] at e1
                          conv_lhs => rw [e1]
                        · intro he
                          rw [he] at hE
                          exact hE rfl
                        · intro c hc
                          have := List.mem_takeWhile_imp hc
                          simpa using this
                        · intro c hc
                          exact List.mem_takeWhile_imp hc
                        · intro he
                          rw [he] at hpE
                          exact hpE rfl
                        · intro c hc
                          have := List.mem_takeWhile_imp hc
                          simpa using this
                      · rw [if_neg htl] at h
                        cases h
                  · rw [if_neg h34] at h
                    cases h
            · rw [if_neg h12] at h
              cases h
    · rw [if_neg hc0] at h
      cases h

/-- C6: a line of the documented shape — bracketed label, colon, optional
spaces, a `./`-relative path with an optional trailing slash at line end —
maps its label to the percent-decoded folder name; conversely, every
mapping the resolver produces comes from a piece of the line of exactly
that shape ending at the line end, so lines without one add no mapping;
and the example line `[CS-2220]: ./CS%202220/` maps `CS-2220` to
`CS 2220`. -/
theorem claim_C6_link_reference_resolver :
    (∀ (label path : String) (sl : Bool),
      label ≠ "" → (∀ c ∈ label.toList, c ≠ ']') →
      path ≠ "" → (∀ c ∈ path.toList, c ≠ '/') →
      linkOfLine ("[" ++ label ++ "]: ./" ++ path ++ (if sl then "/" else "")) =
        some (pyStrip label, pyUnquote (pyStrip path))) ∧
    (∀ (line : String) (lab fol : String), linkOfLine line = some (lab, fol) →
      ∃ pre labL spL pathL tailL,
        line.toList =
          pre ++ '[' :: (labL ++ ']' :: ':' :: (spL ++ '.' :: '/' :: (pathL ++ tailL))) ∧
        labL ≠ [] ∧ (∀ c ∈ labL, ¬(c = ']')) ∧ (∀ c ∈ spL, isPySpace c = true) ∧
        pathL ≠ [] ∧ (∀ c ∈ pathL, ¬(c = '/')) ∧ (tailL = [] ∨ tailL = ['/']) ∧
        lab = pyStrip (String.mk labL) ∧
        fol = pyUnquote (pyStrip (String.mk pathL))) ∧
    parse_link_references_from_readme "[CS-2220]: ./CS%202220/" =
      [("CS-2220", "CS 2220")] ∧
    linkOfLine "| 1 | [CS-2220] | Numerical Methods | 3 | MTH 1112 and MTH 1113 |" =
      none := by
  refine ⟨?_, ?_, by decide, by decide⟩
  · intro label path sl hlabne hlabc hpathne hpathc
    have hlab : label.toList ≠ [] := fun he => hlabne ((toList_eq_nil_iff label).mp he)
    have hpath : path.toList ≠ [] := fun he => hpathne ((toList_eq_nil_iff path).mp he)
    have hlabc' : ∀ c ∈ label.toList, (!(c = ']')) = true := by
      intro c hc
      simpa using hlabc c hc
    have hpathc' : ∀ c ∈ path.toList, (!(c = '/')) = true := by
      intro c hc
      simpa using hpathc c hc
    have hlist : ("[" ++ label ++ "]: ./" ++ path ++ (if sl then "/" else "")).toList =
        '[' :: (label.toList ++ ']' :: ':' :: ' ' :: '.' :: '/' ::
          (path.toList ++ (if sl then ['/'] else []))) := by
      rw [show ("[" ++ label ++ "]: ./" ++ path ++
          (if sl then ("/" : String) else "")).toList =
        ((("[".toList ++ label.toList) ++ "]: ./".toList) ++ path.toList) ++
          (if sl then ("/" : String) else "").toList from by cases sl <;> rfl]
      rw [show "[".toList = ['['] from rfl,
        show "]: ./".toList = ([']', ':', ' ', '.', '/'] : List Char) from rfl,
        show (if sl then ("/" : String) else "").toList =
          (if sl then ['/'] else ([] : List Char)) from by cases sl <;> rfl]
      simp [List.append_assoc]
    unfold linkOfLine
    rw [hlist, searchLink_head _ _ _ (matchLinkAt_wellformed label.toList path.toList
      (if sl then ['/'] else []) hlab hlabc' hpath hpathc'
      (by cases sl <;> simp))]
    rw [mk_toList, mk_toList]
  · intro line lab fol h
    unfold linkOfLine at h
    cases hsr : searchLink line.toList with
    | none =>
      rw [hsr] at h
      cases h
    | some g =>
      rw [hsr] at h
      obtain ⟨g1, g2⟩ := g
      injection h with h'
      injection h' with hl hf
      obtain ⟨pre, suf, hpre, hmp⟩ := searchLink_inv line.toList (g1, g2) hsr
      obtain ⟨labL, spL, pathL, tailL, hdec, h1, h2, h3, h4, h5, h6, h7, h8⟩ :=
        matchLinkAt_inv suf g1 g2 hmp
      exact ⟨pre, labL, spL, pathL, tailL, by rw [hpre, hdec], h1, h2, h3, h4, h5, h6,
        by rw [← hl, h7], by rw [← hf, h8]⟩

/-- Witness for C6 at the example reference line. -/
theorem claim_C6_link_reference_resolver_witness :
    (("CS-2220" : String) ≠ "" ∧ (∀ c ∈ ("CS-2220" : String).toList, c ≠ ']') ∧
      ("CS%202220" : String) ≠ "" ∧ (∀ c ∈ ("CS%202220" : String).toList, c ≠ '/')) ∧
    linkOfLine ("[" ++ "CS-2220" ++ "]: ./" ++ "CS%202220" ++
        (if true then "/" else "")) =
      some (pyStrip "CS-2220", pyUnquote (pyStrip "CS%202220")) := by
  refine ⟨⟨by decide, by decide, by decide, by decide⟩, ?_⟩
  exact claim_C6_link_reference_resolver.1 "CS-2220" "CS%202220" true (by decide)
    (by decide) (by decide) (by decide)

end CourseJson
